import Mathlib

/-!
A verification development for the channel-multiplexer core (`core.c`) of the
fb-adb repository.  The functions of `core.c` are embedded shallowly: ring
buffers become lists of bytes, the session state becomes an explicit record,
fatal protocol errors (`die_proto_error`) become the `Except.error` branch, and
the frames written into the `TO_PEER` ring by the pump are additionally
recorded in an explicit trace list (one entry per `channel_write` to
`TO_PEER`).  The helpers that `core.c` links against but whose sources are not
part of this tree (`ringbuf.c`, `channel.c`, `core.h`, `proto.h`, `util.h`)
are modelled from the written contract of the spec and are marked as such.
-/

namespace FbAdb

/-- Modelled from the spec: the ring buffer (`ringbuf.h`/`ringbuf.c` are not in
the tree).  A fixed-capacity byte FIFO; `data` lists the readable bytes, head
first (spec §4.1). -/
structure Ringbuf where
  capacity : Nat
  data : List Nat
deriving DecidableEq

/-- Modelled from the spec: `ringbuf_size` — bytes currently readable. -/
def ringbuf_size (rb : Ringbuf) : Nat := rb.data.length

/-- Modelled from the spec: `ringbuf_room` — bytes currently writable,
`capacity - size`. -/
def ringbuf_room (rb : Ringbuf) : Nat := rb.capacity - rb.data.length

/-- Modelled from the spec: `ringbuf_copy_out` peeks `n` bytes from the head
without consuming them. -/
def ringbuf_copy_out (rb : Ringbuf) (n : Nat) : List Nat := rb.data.take n

/-- Modelled from the spec: `ringbuf_note_removed` consumes `n` bytes from the
head. -/
def ringbuf_note_removed (rb : Ringbuf) (n : Nat) : Ringbuf :=
  { rb with data := rb.data.drop n }

/-- Modelled from the spec: the bytes exposed by `ringbuf_readable_iov` for a
scatter read of `n` bytes (up to two contiguous views totaling `n` readable
bytes). -/
def ringbuf_readable (rb : Ringbuf) (n : Nat) : List Nat := rb.data.take n

/-- Modelled from the spec: appending bytes at the tail of a ring. -/
def ringbuf_append (rb : Ringbuf) (bs : List Nat) : Ringbuf :=
  { rb with data := rb.data ++ bs }

/-- Modelled from the spec: special channel indices (`core.h` is not in the
tree; spec §3: indices 0 and 1 are reserved, `NR_SPECIAL_CH = 1`, user
channels start at index 2). -/
def FROM_PEER : Nat := 0

/-- Modelled from the spec: index of the peer-send channel. -/
def TO_PEER : Nat := 1

/-- Modelled from the spec: the largest special channel index. -/
def NR_SPECIAL_CH : Nat := 1

/-- Modelled from the spec: message type tag for CHANNEL_DATA (`proto.h` is
not in the tree; the code depends only on the three tags being distinct). -/
def MSG_CHANNEL_DATA : Nat := 1

/-- Modelled from the spec: message type tag for CHANNEL_WINDOW. -/
def MSG_CHANNEL_WINDOW : Nat := 2

/-- Modelled from the spec: message type tag for CHANNEL_CLOSE. -/
def MSG_CHANNEL_CLOSE : Nat := 3

/-- `sizeof (struct msg)`: `{ type:u8, pad:u8, size:u16 }`, 4 bytes (spec §6). -/
def sizeof_msg : Nat := 4

/-- `sizeof (struct msg_channel_data)`: header plus `channel:u32`, 8 bytes. -/
def sizeof_msg_channel_data : Nat := 8

/-- `sizeof (struct msg_channel_window)`: header plus two u32 fields, 12 bytes. -/
def sizeof_msg_channel_window : Nat := 12

/-- `sizeof (struct msg_channel_close)`: header plus `channel:u32`, 8 bytes. -/
def sizeof_msg_channel_close : Nat := 8

/-- Byte `i` of a byte list (0 when out of range; the code never reads out of
range because callers check sizes first). -/
def byteAt (l : List Nat) (i : Nat) : Nat := l.getD i 0

/-- Little-endian decoding of a u16 from two bytes (spec §6: all integers
little-endian). -/
def le16 (b0 b1 : Nat) : Nat := b0 + 256 * b1

/-- Little-endian decoding of a u32 from four bytes. -/
def le32 (b0 b1 b2 b3 : Nat) : Nat :=
  b0 + 256 * b1 + 65536 * b2 + 16777216 * b3

/-- `struct msg`: the fixed message header (the pad byte carries no
information). -/
structure Msg where
  type : Nat
  size : Nat
deriving DecidableEq

/-- Reading a `struct msg` from the head bytes of a ring, as
`ringbuf_copy_out(rb, &mhdr, sizeof (*mhdr))` does. -/
def parseHeader (l : List Nat) : Msg :=
  { type := byteAt l 0, size := le16 (byteAt l 2) (byteAt l 3) }

/-- `struct msg_channel_data` (without the flexible payload). -/
structure MsgChannelData where
  msg : Msg
  channel : Nat
deriving DecidableEq

/-- `struct msg_channel_window`. -/
structure MsgChannelWindow where
  msg : Msg
  channel : Nat
  window_delta : Nat
deriving DecidableEq

/-- `struct msg_channel_close`. -/
structure MsgChannelClose where
  msg : Msg
  channel : Nat
deriving DecidableEq

/-- Reading a `struct msg_channel_data` from raw bytes. -/
def parseChannelData (l : List Nat) : MsgChannelData :=
  { msg := parseHeader l
    channel := le32 (byteAt l 4) (byteAt l 5) (byteAt l 6) (byteAt l 7) }

/-- Reading a `struct msg_channel_window` from raw bytes. -/
def parseChannelWindow (l : List Nat) : MsgChannelWindow :=
  { msg := parseHeader l
    channel := le32 (byteAt l 4) (byteAt l 5) (byteAt l 6) (byteAt l 7)
    window_delta := le32 (byteAt l 8) (byteAt l 9) (byteAt l 10) (byteAt l 11) }

/-- Reading a `struct msg_channel_close` from raw bytes. -/
def parseChannelClose (l : List Nat) : MsgChannelClose :=
  { msg := parseHeader l
    channel := le32 (byteAt l 4) (byteAt l 5) (byteAt l 6) (byteAt l 7) }

/-- The fatal protocol errors raised by `die_proto_error` / `die(ECOMM, ...)`
in `core.c`, one tag per distinct call site kind. -/
inductive ProtoError where
  | impossiblyLargeMessage
  | wrongMsgSize
  | invalidChannel
  | wrongDirection
  | windowDesync
  | windowOverflow
  | unrecognizedCommand
deriving DecidableEq

/-- `detect_msg` (core.c): peek at the peer-receive ring and decide whether a
whole message is available.  It never consumes bytes — in this embedding that
is structural: the function returns no ring at all. -/
def detect_msg (rb : Ringbuf) : Except ProtoError (Option Msg) :=
  let avail := ringbuf_size rb
  if avail < sizeof_msg then Except.ok none
  else
    let mhdr := parseHeader rb.data
    if avail < mhdr.size then
      if ringbuf_room rb < mhdr.size - avail then
        Except.error ProtoError.impossiblyLargeMessage
      else Except.ok none
    else Except.ok (some mhdr)

/-- Channel direction (`channel.h` is not in the tree; spec §3). -/
inductive ChanDir where
  | fromFd
  | toFd
deriving DecidableEq

/-- Modelled from the spec: one multiplexed channel (`channel.h`/`channel.c`
are not in the tree; the fields are those of spec §3, with `fdh : Bool`
standing for presence of the local fd handle). -/
structure Chan where
  dir : ChanDir
  fdh : Bool
  rb : Ringbuf
  window : Nat
  bytes_written : Nat
  sent_eof : Bool
  pending_close : Bool
deriving DecidableEq

/-- Placeholder channel for out-of-range lookups in the model; the code never
dereferences out of range on the paths proved below. -/
def defaultChan : Chan :=
  { dir := ChanDir.toFd, fdh := false, rb := { capacity := 0, data := [] }
    window := 0, bytes_written := 0, sent_eof := false, pending_close := false }

/-- `struct fb_adb_sh`: the session (spec §3).  `nrch` is the channel count
the code checks against; per the spec, `ch` has `nrch` entries. -/
structure FbAdbSh where
  nrch : Nat
  ch : List Chan
  max_outgoing_msg : Nat
deriving DecidableEq

/-- `sh->ch[i]`. -/
def chAt (sh : FbAdbSh) (i : Nat) : Chan := sh.ch.getD i defaultChan

/-- Updating channel `i` in place. -/
def modifyCh (sh : FbAdbSh) (i : Nat) (f : Chan → Chan) : FbAdbSh :=
  { sh with ch := sh.ch.set i (f (chAt sh i)) }

/-- The channel range check shared by the three message handlers:
`!(channel <= NR_SPECIAL_CH || channel > nrch)`. -/
def channel_ok (nrch chno : Nat) : Bool :=
  decide (NR_SPECIAL_CH < chno) && decide (chno ≤ nrch)

/-- Modelled from the spec: `channel_close` — release the fd; leave `rb`
intact (spec §4.2). -/
def channel_close (c : Chan) : Chan := { c with fdh := false }

/-- Modelled from the spec: `channel_write` — append the gathered bytes to the
channel's ring (spec §4.2; the caller guarantees the room). -/
def channel_write (c : Chan) (bs : List Nat) : Chan :=
  { c with rb := ringbuf_append c.rb bs }

/-- Modelled from the spec: `SATADD` on u32 (`util.h` is not in the tree) —
saturating add that reports overflow; overflow means the mathematical sum
exceeds `2^32 - 1` (spec §4.4: never silently wrap). -/
def SATADD32 (a b : Nat) : Nat × Bool :=
  if 4294967296 ≤ a + b then (4294967295, true) else (a + b, false)

/-- `fb_adb_sh_process_msg_channel_data` (core.c): the CHANNEL_DATA handler,
entered after the dispatcher has consumed the 8-byte `msg_channel_data`
header from the peer-receive ring. -/
def fb_adb_sh_process_msg_channel_data (sh : FbAdbSh) (m : MsgChannelData) :
    Except ProtoError FbAdbSh :=
  if channel_ok sh.nrch m.channel = false then
    Except.error ProtoError.invalidChannel
  else
    let c := chAt sh m.channel
    if c.dir = ChanDir.fromFd then Except.error ProtoError.wrongDirection
    else
      let payloadsz := m.msg.size - sizeof_msg_channel_data
      if c.fdh = false then
        Except.ok (modifyCh sh FROM_PEER
          (fun cc => { cc with rb := ringbuf_note_removed cc.rb payloadsz }))
      else if ringbuf_room c.rb < payloadsz then
        Except.error ProtoError.windowDesync
      else
        let payload := ringbuf_readable (chAt sh FROM_PEER).rb payloadsz
        let sh1 := modifyCh sh m.channel (fun cc => channel_write cc payload)
        Except.ok (modifyCh sh1 FROM_PEER
          (fun cc => { cc with rb := ringbuf_note_removed cc.rb payloadsz }))

/-- `fb_adb_sh_process_msg_channel_window` (core.c). -/
def fb_adb_sh_process_msg_channel_window (sh : FbAdbSh) (m : MsgChannelWindow) :
    Except ProtoError FbAdbSh :=
  if channel_ok sh.nrch m.channel = false then
    Except.error ProtoError.invalidChannel
  else
    let c := chAt sh m.channel
    if c.dir = ChanDir.toFd then Except.error ProtoError.wrongDirection
    else if c.fdh = false then Except.ok sh
    else
      let r := SATADD32 c.window m.window_delta
      if r.2 then Except.error ProtoError.windowOverflow
      else Except.ok (modifyCh sh m.channel (fun cc => { cc with window := r.1 }))

/-- `fb_adb_sh_process_msg_channel_close` (core.c). -/
def fb_adb_sh_process_msg_channel_close (sh : FbAdbSh) (m : MsgChannelClose) :
    Except ProtoError FbAdbSh :=
  if channel_ok sh.nrch m.channel = false then Except.ok sh
  else
    Except.ok (modifyCh sh m.channel
      (fun c => channel_close { c with sent_eof := true }))

/-- `read_cmdmsg` (core.c): check the exact size, copy the whole message out
of the peer-receive ring and consume it. -/
def read_cmdmsg (sh : FbAdbSh) (mhdr : Msg) (msz : Nat) :
    Except ProtoError (FbAdbSh × List Nat) :=
  if mhdr.size ≠ msz then Except.error ProtoError.wrongMsgSize
  else
    Except.ok
      (modifyCh sh FROM_PEER
        (fun cc => { cc with rb := ringbuf_note_removed cc.rb msz }),
       ringbuf_copy_out (chAt sh FROM_PEER).rb msz)

/-- `fb_adb_sh_process_msg` (core.c): the base dispatcher. -/
def fb_adb_sh_process_msg (sh : FbAdbSh) (mhdr : Msg) :
    Except ProtoError FbAdbSh :=
  if mhdr.type = MSG_CHANNEL_DATA then
    if mhdr.size < sizeof_msg_channel_data then
      Except.error ProtoError.wrongMsgSize
    else
      let m := parseChannelData
        (ringbuf_copy_out (chAt sh FROM_PEER).rb sizeof_msg_channel_data)
      let sh1 := modifyCh sh FROM_PEER
        (fun cc => { cc with rb := ringbuf_note_removed cc.rb sizeof_msg_channel_data })
      fb_adb_sh_process_msg_channel_data sh1 m
  else if mhdr.type = MSG_CHANNEL_WINDOW then
    match read_cmdmsg sh mhdr sizeof_msg_channel_window with
    | Except.error e => Except.error e
    | Except.ok r => fb_adb_sh_process_msg_channel_window r.1 (parseChannelWindow r.2)
  else if mhdr.type = MSG_CHANNEL_CLOSE then
    match read_cmdmsg sh mhdr sizeof_msg_channel_close with
    | Except.error e => Except.error e
    | Except.ok r => fb_adb_sh_process_msg_channel_close r.1 (parseChannelClose r.2)
  else Except.error ProtoError.unrecognizedCommand

/-- A protocol frame emitted by the pump into the `TO_PEER` ring.  The trace
of frames mirrors, one to one and in order, the `channel_write` calls on
`sh->ch[TO_PEER]` performed by `xmit_acks`, `xmit_data` and `xmit_eof`. -/
inductive Frame where
  | window (channel : Nat) (delta : Nat)
  | data (channel : Nat) (payload : List Nat)
  | close (channel : Nat)
deriving DecidableEq

/-- The channel number a frame is for. -/
def Frame.channel : Frame → Nat
  | Frame.window c _ => c
  | Frame.data c _ => c
  | Frame.close c => c

/-- Whether a frame is a CHANNEL_WINDOW ack. -/
def Frame.isWindow : Frame → Bool
  | Frame.window _ _ => true
  | _ => false

/-- Whether a frame is a CHANNEL_DATA frame. -/
def Frame.isData : Frame → Bool
  | Frame.data _ _ => true
  | _ => false

/-- Little-endian encoding of a u16 value. -/
def u16bytes (n : Nat) : List Nat := [n % 256, n / 256 % 256]

/-- Little-endian encoding of a u32 value. -/
def u32bytes (n : Nat) : List Nat :=
  [n % 256, n / 256 % 256, n / 65536 % 256, n / 16777216 % 256]

/-- The wire bytes of a frame, as built by `xmit_acks` / `xmit_data` /
`xmit_eof` (spec §6 layouts; the `size` field of a DATA frame is
`iovec_sum(iov)` stored into a u16, hence reduced mod 2^16). -/
def encodeFrame : Frame → List Nat
  | Frame.window c d =>
      MSG_CHANNEL_WINDOW % 256 :: 0 :: u16bytes sizeof_msg_channel_window
        ++ u32bytes c ++ u32bytes d
  | Frame.data c p =>
      MSG_CHANNEL_DATA % 256 :: 0 :: u16bytes (sizeof_msg_channel_data + p.length)
        ++ u32bytes c ++ p
  | Frame.close c =>
      MSG_CHANNEL_CLOSE % 256 :: 0 :: u16bytes sizeof_msg_channel_close
        ++ u32bytes c

/-- The value of the emitted message's `size` header field (a u16 on the
wire). -/
def Frame.sizeField (f : Frame) : Nat := (parseHeader (encodeFrame f)).size

/-- `channel_write(sh->ch[TO_PEER], ...)`: append the frame's bytes to the
peer-send ring. -/
def emitFrame (sh : FbAdbSh) (f : Frame) : FbAdbSh :=
  modifyCh sh TO_PEER (fun c => channel_write c (encodeFrame f))

/-- `fb_adb_maxoutmsg` (core.c): the effective outgoing-message budget. -/
def fb_adb_maxoutmsg (sh : FbAdbSh) : Nat :=
  min sh.max_outgoing_msg (ringbuf_room (chAt sh TO_PEER).rb)

/-- `xmit_acks` (core.c): frame a CHANNEL_WINDOW ack for channel `chno` when
credit has accumulated and the message fits the budget. -/
def xmit_acks (chno : Nat) (sh : FbAdbSh) : FbAdbSh × List Frame :=
  let c := chAt sh chno
  let maxoutmsg := fb_adb_maxoutmsg sh
  if 0 < c.bytes_written ∧ sizeof_msg_channel_window ≤ maxoutmsg then
    let f := Frame.window chno c.bytes_written
    let sh1 := emitFrame sh f
    (modifyCh sh1 chno (fun cc => { cc with bytes_written := 0 }), [f])
  else (sh, [])

/-- `xmit_data` (core.c): frame one CHANNEL_DATA for channel `chno` when it is
a FROM_FD channel with buffered bytes and the budget exceeds the data header
size. -/
def xmit_data (chno : Nat) (sh : FbAdbSh) : FbAdbSh × List Frame :=
  let c := chAt sh chno
  if c.dir ≠ ChanDir.fromFd then (sh, [])
  else
    let maxoutmsg := fb_adb_maxoutmsg sh
    let avail := ringbuf_size c.rb
    if sizeof_msg_channel_data < maxoutmsg ∧ 0 < avail then
      let payloadsz := min avail (maxoutmsg - sizeof_msg_channel_data)
      let f := Frame.data chno (ringbuf_readable c.rb payloadsz)
      let sh1 := emitFrame sh f
      (modifyCh sh1 chno
        (fun cc => { cc with rb := ringbuf_note_removed cc.rb payloadsz }), [f])
    else (sh, [])

/-- `xmit_eof` (core.c): frame CHANNEL_CLOSE once the fd is gone, nothing is
buffered, no CLOSE was sent yet and the message fits; sets `sent_eof`. -/
def xmit_eof (chno : Nat) (sh : FbAdbSh) : FbAdbSh × List Frame :=
  let c := chAt sh chno
  if c.fdh = false ∧ c.sent_eof = false ∧ ringbuf_size c.rb = 0 ∧
      sizeof_msg_channel_close ≤ fb_adb_maxoutmsg sh then
    let f := Frame.close chno
    let sh1 := emitFrame sh f
    (modifyCh sh1 chno (fun cc => { cc with sent_eof := true }), [f])
  else (sh, [])

/-- `do_pending_close` (core.c). -/
def do_pending_close (chno : Nat) (sh : FbAdbSh) : FbAdbSh :=
  let c := chAt sh chno
  if c.dir = ChanDir.toFd ∧ c.fdh = true ∧ ringbuf_size c.rb = 0 ∧
      c.pending_close = true then
    modifyCh sh chno channel_close
  else sh

/-- The body of the second per-channel loop of `io_loop_pump` for one channel. -/
def serviceChannel (sh : FbAdbSh) (chno : Nat) : FbAdbSh × List Frame :=
  let r1 := if NR_SPECIAL_CH < chno then xmit_data chno sh else (sh, [])
  let sh2 := do_pending_close chno r1.1
  let r2 := xmit_eof chno sh2
  (r2.1, r1.2 ++ r2.2)

/-- The first per-channel loop of `io_loop_pump`: `xmit_acks` for every
channel index in the given order. -/
def runAcksFrom (sh : FbAdbSh) : List Nat → FbAdbSh × List Frame
  | [] => (sh, [])
  | chno :: rest =>
    let r := xmit_acks chno sh
    let rr := runAcksFrom r.1 rest
    (rr.1, r.2 ++ rr.2)

/-- The second per-channel loop of `io_loop_pump`. -/
def runServiceFrom (sh : FbAdbSh) : List Nat → FbAdbSh × List Frame
  | [] => (sh, [])
  | chno :: rest =>
    let r := serviceChannel sh chno
    let rr := runServiceFrom r.1 rest
    (rr.1, r.2 ++ rr.2)

/-- The two framing loops of `io_loop_pump`, after the drain phase. -/
def pumpPhase2 (sh : FbAdbSh) : FbAdbSh × List Frame :=
  let ra := runAcksFrom sh (List.range sh.nrch)
  let rs := runServiceFrom ra.1 (List.range sh.nrch)
  (rs.1, ra.2 ++ rs.2)

/-- The drain phase of `io_loop_pump`:
`while (detect_msg(...)) sh->process_msg(sh, mhdr)`.  The loop terminates
because every dispatched message consumes at least 8 bytes of the
peer-receive ring; the explicit fuel `ringbuf_size + 1` therefore never runs
out. -/
def drainLoop : Nat → FbAdbSh → Except ProtoError FbAdbSh
  | 0, sh => Except.ok sh
  | Nat.succ fuel, sh =>
    match detect_msg (chAt sh FROM_PEER).rb with
    | Except.error e => Except.error e
    | Except.ok none => Except.ok sh
    | Except.ok (some mhdr) =>
      match fb_adb_sh_process_msg sh mhdr with
      | Except.error e => Except.error e
      | Except.ok sh1 => drainLoop fuel sh1

/-- `io_loop_pump` (core.c): drain whole messages off the peer-receive ring,
then run the two framing loops.  The returned list is the trace of frames
appended to the `TO_PEER` ring, in order. -/
def io_loop_pump (sh : FbAdbSh) : Except ProtoError (FbAdbSh × List Frame) :=
  match drainLoop (ringbuf_size (chAt sh FROM_PEER).rb + 1) sh with
  | Except.error e => Except.error e
  | Except.ok sh1 => Except.ok (pumpPhase2 sh1)

/-- Decidable equality for `Except`, so that concrete runs of the model can be
checked by `decide`. -/
instance {ε α : Type} [DecidableEq ε] [DecidableEq α] : DecidableEq (Except ε α) :=
  fun x y =>
    match x, y with
    | Except.ok a, Except.ok b =>
      if h : a = b then isTrue (congrArg Except.ok h)
      else isFalse (fun hc => h (Except.ok.inj hc))
    | Except.error a, Except.error b =>
      if h : a = b then isTrue (congrArg Except.error h)
      else isFalse (fun hc => h (Except.error.inj hc))
    | Except.ok _, Except.error _ => isFalse (fun hc => Except.noConfusion hc)
    | Except.error _, Except.ok _ => isFalse (fun hc => Except.noConfusion hc)

/-! ## Basic lemmas about the state helpers -/

theorem getD_set {α : Type} (l : List α) (i j : Nat) (a d : α) :
    (l.set i a).getD j d = if i = j ∧ j < l.length then a else l.getD j d := by
  induction l generalizing i j with
  | nil => simp
  | cons x xs ih =>
    cases i with
    | zero => cases j <;> simp [List.getD]
    | succ n =>
      cases j with
      | zero => simp [List.getD]
      | succ m => simpa [List.getD, Nat.succ_lt_succ_iff] using ih n m

theorem chAt_modifyCh (sh : FbAdbSh) (i j : Nat) (f : Chan → Chan) :
    chAt (modifyCh sh i f) j =
      if i = j ∧ j < sh.ch.length then f (chAt sh i) else chAt sh j := by
  show (sh.ch.set i (f (chAt sh i))).getD j defaultChan = _
  rw [getD_set]
  rfl

theorem length_modifyCh (sh : FbAdbSh) (i : Nat) (f : Chan → Chan) :
    (modifyCh sh i f).ch.length = sh.ch.length := by
  simp [modifyCh]

theorem nrch_modifyCh (sh : FbAdbSh) (i : Nat) (f : Chan → Chan) :
    (modifyCh sh i f).nrch = sh.nrch := rfl

theorem maxout_modifyCh (sh : FbAdbSh) (i : Nat) (f : Chan → Chan) :
    (modifyCh sh i f).max_outgoing_msg = sh.max_outgoing_msg := rfl

/-! ## C2: detect_msg -/

/-- C2: `detect_msg` returns no header when fewer than 4 bytes are readable;
when a header is readable but fewer than `header.size` bytes are readable, it
raises the fatal protocol error exactly when the outstanding bytes exceed the
ring's room — equivalently, exactly when `header.size` exceeds the ring's
total capacity — and otherwise returns no header; when at least `header.size`
bytes are readable it returns the header.  `detect_msg` consumes nothing in
every case: the embedding is a pure function of the ring that returns no ring,
mirroring that the code only ever peeks (`ringbuf_copy_out`). -/
theorem c2_detect_msg (rb : Ringbuf) (hwf : rb.data.length ≤ rb.capacity) :
    (ringbuf_size rb < sizeof_msg → detect_msg rb = Except.ok none) ∧
    (sizeof_msg ≤ ringbuf_size rb → ringbuf_size rb < (parseHeader rb.data).size →
      ((detect_msg rb = Except.error ProtoError.impossiblyLargeMessage ↔
          ringbuf_room rb < (parseHeader rb.data).size - ringbuf_size rb) ∧
       (detect_msg rb = Except.error ProtoError.impossiblyLargeMessage ↔
          rb.capacity < (parseHeader rb.data).size) ∧
       ((parseHeader rb.data).size ≤ rb.capacity → detect_msg rb = Except.ok none))) ∧
    (sizeof_msg ≤ ringbuf_size rb → (parseHeader rb.data).size ≤ ringbuf_size rb →
      detect_msg rb = Except.ok (some (parseHeader rb.data))) := by
  have hsz : ringbuf_size rb = rb.data.length := rfl
  have hrm : ringbuf_room rb = rb.capacity - rb.data.length := rfl
  refine ⟨?_, ?_, ?_⟩
  · intro h
    simp [detect_msg, h]
  · intro h4 hlt
    have hno : ¬ ringbuf_size rb < sizeof_msg := by omega
    by_cases hbig : ringbuf_room rb < (parseHeader rb.data).size - ringbuf_size rb
    · have hres : detect_msg rb = Except.error ProtoError.impossiblyLargeMessage := by
        simp [detect_msg, hno, hlt, hbig]
      refine ⟨by simp [hres, hbig], ?_, ?_⟩
      · rw [hres]
        simp only [true_iff]
        omega
      · intro hle
        omega
    · have hres : detect_msg rb = Except.ok none := by
        simp [detect_msg, hno, hlt, hbig]
      refine ⟨by simp [hres, hbig], ?_, fun _ => hres⟩
      rw [hres]
      constructor
      · intro h
        exact absurd h (by simp)
      · intro hcap
        omega
  · intro h4 hge
    have hno : ¬ ringbuf_size rb < sizeof_msg := by omega
    have hno2 : ¬ ringbuf_size rb < (parseHeader rb.data).size := by omega
    simp [detect_msg, hno, hno2]

/-- Witness for C2 at a concrete ring. -/
theorem c2_detect_msg_witness :
    detect_msg { capacity := 8, data := [] } = Except.ok none := by
  have h := c2_detect_msg { capacity := 8, data := [] } (by decide)
  exact h.1 (by decide)

/-! ## Concrete sessions used as witnesses and counterexamples -/

/-- A channel with an open fd and clean counters, for building examples. -/
def openCh (d : ChanDir) (cap : Nat) (bytes : List Nat) : Chan :=
  { dir := d, fdh := true, rb := { capacity := cap, data := bytes }
    window := 0, bytes_written := 0, sent_eof := false, pending_close := false }

/-! ## C10: the handlers' range check versus the channel array bounds -/

/-- A session with only the two special channels: `nrch = 2` and, per the
spec (`nrch` is the total channel count), a channel array of 2 entries. -/
def exC10 : FbAdbSh :=
  { nrch := 2, ch := [openCh ChanDir.toFd 8 [], openCh ChanDir.toFd 8 []]
    max_outgoing_msg := 16 }

/-- C10 counterexample: channel number 2 passes the shared range check of the
three handlers (`NR_SPECIAL_CH < 2 ∧ 2 ≤ nrch`), yet in a session whose
channel array has `nrch = 2` entries the access `sh->ch[2]` is one past the
end — the lookup is out of bounds, refuting that every accepted index is
valid. -/
theorem c10_counterexample :
    channel_ok exC10.nrch 2 = true ∧ exC10.ch.length = exC10.nrch ∧
      exC10.ch[2]? = none := by
  decide

/-- C10 amended: every channel index accepted by the range check satisfies
`NR_SPECIAL_CH < channel ≤ nrch`; with the spec's `nrch`-entry channel array
such an index is in bounds exactly when `channel ≠ nrch`, so `channel = nrch`
passes the check but `sh->ch[nrch]` is one past the end of the array. -/
theorem c10_amended (sh : FbAdbSh) (chno : Nat) (hwf : sh.ch.length = sh.nrch)
    (h : channel_ok sh.nrch chno = true) :
    NR_SPECIAL_CH < chno ∧ chno ≤ sh.nrch ∧
      (chno < sh.ch.length ↔ chno ≠ sh.nrch) ∧
      (chno = sh.nrch → sh.ch[chno]? = none) := by
  have h1 : NR_SPECIAL_CH < chno ∧ chno ≤ sh.nrch := by
    simpa [channel_ok] using h
  refine ⟨h1.1, h1.2, by omega, fun he => ?_⟩
  apply List.getElem?_eq_none
  omega

/-- Witness for the amended C10 at the concrete session. -/
theorem c10_amended_witness : exC10.ch[2]? = none := by
  have h := c10_amended exC10 2 (by decide) (by decide)
  exact h.2.2.2 (by decide)

/-! ## C7: the CHANNEL_WINDOW handler -/

/-- C7: for an in-range CHANNEL_WINDOW whose target is a FROM_FD channel with
an open fd, the window becomes `window + window_delta` exactly, and a
mathematical sum above `2^32 - 1` is a fatal protocol error rather than a
wrap; a TO_FD target is a fatal protocol error; a locally closed target is
ignored with no state change. -/
theorem c7_channel_window (sh : FbAdbSh) (m : MsgChannelWindow)
    (hok : channel_ok sh.nrch m.channel = true)
    (hlt : m.channel < sh.ch.length) :
    ((chAt sh m.channel).dir = ChanDir.toFd →
       fb_adb_sh_process_msg_channel_window sh m =
         Except.error ProtoError.wrongDirection) ∧
    ((chAt sh m.channel).dir = ChanDir.fromFd →
      ((chAt sh m.channel).fdh = false →
         fb_adb_sh_process_msg_channel_window sh m = Except.ok sh) ∧
      ((chAt sh m.channel).fdh = true →
        ((chAt sh m.channel).window + m.window_delta < 4294967296 →
           fb_adb_sh_process_msg_channel_window sh m =
             Except.ok (modifyCh sh m.channel
               (fun cc =>
                 { cc with window := (chAt sh m.channel).window + m.window_delta }))) ∧
        (4294967296 ≤ (chAt sh m.channel).window + m.window_delta →
           fb_adb_sh_process_msg_channel_window sh m =
             Except.error ProtoError.windowOverflow))) := by
  refine ⟨fun hdir => ?_, fun hdir => ⟨fun hfdh => ?_, fun hfdh => ⟨fun hno => ?_, fun hovf => ?_⟩⟩⟩
  · simp [fb_adb_sh_process_msg_channel_window, hok, hdir]
  · simp [fb_adb_sh_process_msg_channel_window, hok, hdir, hfdh]
  · have hs : SATADD32 (chAt sh m.channel).window m.window_delta =
        ((chAt sh m.channel).window + m.window_delta, false) := by
      simp [SATADD32]
      omega
    simp [fb_adb_sh_process_msg_channel_window, hok, hdir, hfdh, hs]
  · have hs : SATADD32 (chAt sh m.channel).window m.window_delta =
        (4294967295, true) := by
      simp [SATADD32]
      omega
    simp [fb_adb_sh_process_msg_channel_window, hok, hdir, hfdh, hs]

/-- Session for the C7 witness: user channel 2 is FROM_FD, open, window 10. -/
def exC7 : FbAdbSh :=
  { nrch := 3
    ch := [openCh ChanDir.toFd 16 [], openCh ChanDir.toFd 16 []
          , { openCh ChanDir.fromFd 16 [] with window := 10 }]
    max_outgoing_msg := 64 }

/-- Witness for C7: a delta of 5 takes channel 2's window from 10 to 15. -/
theorem c7_channel_window_witness :
    fb_adb_sh_process_msg_channel_window exC7
        { msg := { type := MSG_CHANNEL_WINDOW, size := 12 }, channel := 2, window_delta := 5 } =
      Except.ok
        { nrch := 3
          ch := [openCh ChanDir.toFd 16 [], openCh ChanDir.toFd 16 []
                , { openCh ChanDir.fromFd 16 [] with window := 15 }]
          max_outgoing_msg := 64 } := by
  have h := c7_channel_window exC7
    { msg := { type := MSG_CHANNEL_WINDOW, size := 12 }, channel := 2, window_delta := 5 }
    (by decide) (by decide)
  have h2 := ((h.2 (by decide)).2 (by decide)).1 (by decide)
  rw [h2]
  exact congrArg Except.ok (by decide)

/-! ## C8: the CHANNEL_CLOSE handler -/

/-- C8: a CHANNEL_CLOSE with an out-of-range channel number is silently
ignored — the handler returns the session unchanged and raises no error;
otherwise it sets the target's `sent_eof` and closes the channel, releasing
the fd handle while leaving the target's ring buffer (and every other field
and channel) intact. -/
theorem c8_channel_close (sh : FbAdbSh) (m : MsgChannelClose) :
    (channel_ok sh.nrch m.channel = false →
       fb_adb_sh_process_msg_channel_close sh m = Except.ok sh) ∧
    (channel_ok sh.nrch m.channel = true → m.channel < sh.ch.length →
      ∃ sh1, fb_adb_sh_process_msg_channel_close sh m = Except.ok sh1 ∧
        (chAt sh1 m.channel).sent_eof = true ∧
        (chAt sh1 m.channel).fdh = false ∧
        (chAt sh1 m.channel).rb = (chAt sh m.channel).rb ∧
        (chAt sh1 m.channel).dir = (chAt sh m.channel).dir ∧
        (chAt sh1 m.channel).window = (chAt sh m.channel).window ∧
        (chAt sh1 m.channel).bytes_written = (chAt sh m.channel).bytes_written ∧
        (chAt sh1 m.channel).pending_close = (chAt sh m.channel).pending_close ∧
        (∀ j, j ≠ m.channel → chAt sh1 j = chAt sh j) ∧
        sh1.nrch = sh.nrch ∧ sh1.ch.length = sh.ch.length) := by
  refine ⟨fun hbad => ?_, fun hok hlt => ?_⟩
  · simp [fb_adb_sh_process_msg_channel_close, hbad]
  · refine ⟨modifyCh sh m.channel (fun c => channel_close { c with sent_eof := true }),
      by simp [fb_adb_sh_process_msg_channel_close, hok], ?_⟩
    have hself :
        chAt (modifyCh sh m.channel (fun c => channel_close { c with sent_eof := true }))
          m.channel = channel_close { chAt sh m.channel with sent_eof := true } := by
      rw [chAt_modifyCh, if_pos ⟨rfl, hlt⟩]
    have hother : ∀ j, j ≠ m.channel →
        chAt (modifyCh sh m.channel (fun c => channel_close { c with sent_eof := true })) j =
          chAt sh j := by
      intro j hj
      rw [chAt_modifyCh, if_neg (fun hc => hj hc.1.symm)]
    refine ⟨?_, ?_, ?_, ?_, ?_, ?_, ?_, hother, rfl, length_modifyCh sh m.channel _⟩ <;>
      (rw [hself]; rfl)

/-- Session for the C8 witness: user channel 2 open with buffered bytes. -/
def exC8 : FbAdbSh :=
  { nrch := 3
    ch := [openCh ChanDir.toFd 16 [], openCh ChanDir.toFd 16 []
          , openCh ChanDir.toFd 16 [3, 4]]
    max_outgoing_msg := 64 }

/-- Witness for C8: closing channel 2 sets `sent_eof`, drops the fd handle
and keeps the buffered bytes. -/
theorem c8_channel_close_witness :
    ∃ sh1, fb_adb_sh_process_msg_channel_close exC8
        { msg := { type := MSG_CHANNEL_CLOSE, size := 8 }, channel := 2 } = Except.ok sh1 ∧
      (chAt sh1 2).sent_eof = true ∧ (chAt sh1 2).fdh = false ∧
      (chAt sh1 2).rb = (chAt exC8 2).rb := by
  have h := (c8_channel_close exC8
    { msg := { type := MSG_CHANNEL_CLOSE, size := 8 }, channel := 2 }).2
    (by decide) (by decide)
  obtain ⟨sh1, h1, h2, h3, h4, _⟩ := h
  exact ⟨sh1, h1, h2, h3, h4⟩

/-! ## C1: the CHANNEL_DATA path of the dispatcher -/

theorem modifyCh_modifyCh_same (sh : FbAdbSh) (i : Nat) (f g : Chan → Chan) :
    modifyCh (modifyCh sh i g) i f = modifyCh sh i (fun c => f (g c)) := by
  show ({ sh with ch := ((sh.ch.set i (g (chAt sh i))).set i (f (chAt (modifyCh sh i g) i))) } : FbAdbSh) = { sh with ch := sh.ch.set i (f (g (chAt sh i))) }
  rw [List.set_set]
  by_cases h : i < sh.ch.length
  · rw [chAt_modifyCh, if_pos ⟨rfl, h⟩]
  · rw [chAt_modifyCh, if_neg (fun hc => h hc.2)]
    rw [List.set_eq_of_length_le (Nat.le_of_not_lt h),
        List.set_eq_of_length_le (Nat.le_of_not_lt h)]

/-- The `msg_channel_data` struct the dispatcher copies out of the head of the
peer-receive ring (`ringbuf_copy_out(cmdch->rb, &m, sizeof (m))`). -/
def dataHeaderMsg (sh : FbAdbSh) : MsgChannelData :=
  parseChannelData (ringbuf_copy_out (chAt sh FROM_PEER).rb sizeof_msg_channel_data)

/-- The payload size `m->msg.size - sizeof (*m)` computed by the handler. -/
def dataPayloadSz (sh : FbAdbSh) : Nat :=
  (dataHeaderMsg sh).msg.size - sizeof_msg_channel_data

/-- The payload: the bytes at the head of the peer-receive ring once the
8-byte data header is gone, truncated to the payload size. -/
def dataPayload (sh : FbAdbSh) : List Nat :=
  ((chAt sh FROM_PEER).rb.data.drop sizeof_msg_channel_data).take (dataPayloadSz sh)

/-- C1: on a CHANNEL_DATA header, a `size` below `sizeof(msg_channel_data)`
is a fatal protocol error; otherwise, after the dispatcher consumes the
8-byte data header, an out-of-range channel number or a FROM_FD target is a
fatal protocol error; a target whose fd handle is gone consumes exactly
`payloadsz = size - sizeof(msg_channel_data)` further bytes from the
peer-receive ring and changes nothing else; a target ring with less room than
`payloadsz` is the fatal `window desync` protocol error; otherwise the payload
bytes are appended to the target channel's ring and removed from the
peer-receive ring. -/
theorem c1_channel_data (sh : FbAdbSh) (mhdr : Msg)
    (htype : mhdr.type = MSG_CHANNEL_DATA) (h0 : 0 < sh.ch.length) :
    (mhdr.size < sizeof_msg_channel_data →
       fb_adb_sh_process_msg sh mhdr = Except.error ProtoError.wrongMsgSize) ∧
    (sizeof_msg_channel_data ≤ mhdr.size →
      (channel_ok sh.nrch (dataHeaderMsg sh).channel = false →
         fb_adb_sh_process_msg sh mhdr = Except.error ProtoError.invalidChannel) ∧
      (channel_ok sh.nrch (dataHeaderMsg sh).channel = true →
        (dataHeaderMsg sh).channel < sh.ch.length →
        ((chAt sh (dataHeaderMsg sh).channel).dir = ChanDir.fromFd →
           fb_adb_sh_process_msg sh mhdr = Except.error ProtoError.wrongDirection) ∧
        ((chAt sh (dataHeaderMsg sh).channel).dir = ChanDir.toFd →
          ((chAt sh (dataHeaderMsg sh).channel).fdh = false →
             fb_adb_sh_process_msg sh mhdr =
               Except.ok (modifyCh sh FROM_PEER (fun cc =>
                 { cc with rb := ringbuf_note_removed cc.rb (sizeof_msg_channel_data + dataPayloadSz sh) }))) ∧
          ((chAt sh (dataHeaderMsg sh).channel).fdh = true →
            (ringbuf_room (chAt sh (dataHeaderMsg sh).channel).rb < dataPayloadSz sh →
               fb_adb_sh_process_msg sh mhdr = Except.error ProtoError.windowDesync) ∧
            (dataPayloadSz sh ≤ ringbuf_room (chAt sh (dataHeaderMsg sh).channel).rb →
              ∃ sh2, fb_adb_sh_process_msg sh mhdr = Except.ok sh2 ∧
                (chAt sh2 (dataHeaderMsg sh).channel).rb.data =
                  (chAt sh (dataHeaderMsg sh).channel).rb.data ++ dataPayload sh ∧
                (chAt sh2 (dataHeaderMsg sh).channel).rb.capacity =
                  (chAt sh (dataHeaderMsg sh).channel).rb.capacity ∧
                (chAt sh2 FROM_PEER).rb.data =
                  (chAt sh FROM_PEER).rb.data.drop
                    (sizeof_msg_channel_data + dataPayloadSz sh) ∧
                (chAt sh2 FROM_PEER).rb.capacity = (chAt sh FROM_PEER).rb.capacity ∧
                (∀ j, j ≠ FROM_PEER → j ≠ (dataHeaderMsg sh).channel →
                   chAt sh2 j = chAt sh j) ∧
                sh2.nrch = sh.nrch ∧ sh2.ch.length = sh.ch.length))))) := by
  refine ⟨fun hsz => ?_, fun hsz => ?_⟩
  · simp [fb_adb_sh_process_msg, htype, hsz]
  have hstep : fb_adb_sh_process_msg sh mhdr =
      fb_adb_sh_process_msg_channel_data
        (modifyCh sh FROM_PEER (fun cc =>
          { cc with rb := ringbuf_note_removed cc.rb sizeof_msg_channel_data }))
        (dataHeaderMsg sh) := by
    simp [fb_adb_sh_process_msg, htype, dataHeaderMsg,
          show ¬ mhdr.size < sizeof_msg_channel_data from by omega]
  refine ⟨fun hbad => ?_, fun hok hlt => ?_⟩
  · rw [hstep]
    simp [fb_adb_sh_process_msg_channel_data, nrch_modifyCh, hbad]
  have htgt : NR_SPECIAL_CH < (dataHeaderMsg sh).channel ∧
      (dataHeaderMsg sh).channel ≤ sh.nrch := by
    simpa [channel_ok] using hok
  have htgt0 : (dataHeaderMsg sh).channel ≠ FROM_PEER := by
    have := htgt.1
    simp only [NR_SPECIAL_CH] at this
    simp only [FROM_PEER]
    omega
  have hct : chAt (modifyCh sh FROM_PEER (fun cc =>
        { cc with rb := ringbuf_note_removed cc.rb sizeof_msg_channel_data }))
      (dataHeaderMsg sh).channel = chAt sh (dataHeaderMsg sh).channel := by
    rw [chAt_modifyCh, if_neg (fun hc => htgt0 hc.1.symm)]
  have hc0 : chAt (modifyCh sh FROM_PEER (fun cc =>
        { cc with rb := ringbuf_note_removed cc.rb sizeof_msg_channel_data }))
      FROM_PEER =
      { chAt sh FROM_PEER with
          rb := ringbuf_note_removed (chAt sh FROM_PEER).rb sizeof_msg_channel_data } := by
    rw [chAt_modifyCh, if_pos ⟨rfl, h0⟩]
  refine ⟨fun hdir => ?_, fun hdir => ?_⟩
  · rw [hstep]
    simp [fb_adb_sh_process_msg_channel_data, nrch_modifyCh, hok, hct, hdir]
  refine ⟨fun hfdh => ?_, fun hfdh => ?_⟩
  · rw [hstep]
    have hres : fb_adb_sh_process_msg_channel_data
        (modifyCh sh FROM_PEER (fun cc =>
          { cc with rb := ringbuf_note_removed cc.rb sizeof_msg_channel_data }))
        (dataHeaderMsg sh) =
        Except.ok (modifyCh
          (modifyCh sh FROM_PEER (fun cc =>
            { cc with rb := ringbuf_note_removed cc.rb sizeof_msg_channel_data }))
          FROM_PEER (fun cc =>
            { cc with rb := ringbuf_note_removed cc.rb (dataPayloadSz sh) })) := by
      simp [fb_adb_sh_process_msg_channel_data, nrch_modifyCh, hok, hct, hdir, hfdh,
            dataPayloadSz]
    rw [hres, modifyCh_modifyCh_same]
    apply congrArg Except.ok
    unfold modifyCh
    have hval : (fun c : Chan =>
          { { c with rb := ringbuf_note_removed c.rb sizeof_msg_channel_data } with rb := ringbuf_note_removed (ringbuf_note_removed c.rb sizeof_msg_channel_data) (dataPayloadSz sh) })
          (chAt sh FROM_PEER) =
        (fun c : Chan =>
          { c with rb := ringbuf_note_removed c.rb (sizeof_msg_channel_data + dataPayloadSz sh) }) (chAt sh FROM_PEER) := by
      simp [ringbuf_note_removed, List.drop_drop]
    rw [hval]
  · refine ⟨fun hroom => ?_, fun hroom => ?_⟩
    · rw [hstep]
      simp [fb_adb_sh_process_msg_channel_data, nrch_modifyCh, hok, hct, hdir, hfdh,
            dataPayloadSz, hroom]
      simp only [dataPayloadSz, sizeof_msg_channel_data] at hroom ⊢
      omega
    · rw [hstep]
      have hres : fb_adb_sh_process_msg_channel_data
          (modifyCh sh FROM_PEER (fun cc =>
            { cc with rb := ringbuf_note_removed cc.rb sizeof_msg_channel_data }))
          (dataHeaderMsg sh) =
          Except.ok (modifyCh
            (modifyCh
              (modifyCh sh FROM_PEER (fun cc =>
                { cc with rb := ringbuf_note_removed cc.rb sizeof_msg_channel_data }))
              (dataHeaderMsg sh).channel
              (fun cc => channel_write cc (dataPayload sh)))
            FROM_PEER (fun cc =>
              { cc with rb := ringbuf_note_removed cc.rb (dataPayloadSz sh) })) := by
        have hpay : ringbuf_readable
            (chAt (modifyCh sh FROM_PEER (fun cc =>
              { cc with rb := ringbuf_note_removed cc.rb sizeof_msg_channel_data }))
              FROM_PEER).rb (dataPayloadSz sh) = dataPayload sh := by
          rw [hc0]
          rfl
        simp [fb_adb_sh_process_msg_channel_data, nrch_modifyCh, hok, hct, hdir, hfdh,
              show ¬ ringbuf_room (chAt sh (dataHeaderMsg sh).channel).rb <
                (dataHeaderMsg sh).msg.size - sizeof_msg_channel_data from by
                  simpa [dataPayloadSz] using Nat.not_lt.mpr hroom]
        rw [show (dataHeaderMsg sh).msg.size - sizeof_msg_channel_data = dataPayloadSz sh from rfl]
        rw [hpay]
      rw [hres]
      refine ⟨_, rfl, ?_, ?_, ?_, ?_, fun j hj0 hjt => ?_, ?_, ?_⟩
      · rw [chAt_modifyCh, if_neg (fun hc => htgt0 hc.1.symm),
            chAt_modifyCh, if_pos ⟨rfl, by rwa [length_modifyCh]⟩, hct]
        rfl
      · rw [chAt_modifyCh, if_neg (fun hc => htgt0 hc.1.symm),
            chAt_modifyCh, if_pos ⟨rfl, by rwa [length_modifyCh]⟩, hct]
        rfl
      · rw [chAt_modifyCh, if_pos ⟨rfl, by rwa [length_modifyCh, length_modifyCh]⟩,
            chAt_modifyCh, if_neg (fun hc => htgt0 hc.1), hc0]
        simp [ringbuf_note_removed, List.drop_drop]
      · rw [chAt_modifyCh, if_pos ⟨rfl, by rwa [length_modifyCh, length_modifyCh]⟩,
            chAt_modifyCh, if_neg (fun hc => htgt0 hc.1), hc0]
        rfl
      · rw [chAt_modifyCh, if_neg (fun hc => hj0 hc.1.symm),
            chAt_modifyCh, if_neg (fun hc => hjt hc.1.symm),
            chAt_modifyCh, if_neg (fun hc => hj0 hc.1.symm)]
      · rfl
      · rw [length_modifyCh, length_modifyCh, length_modifyCh]

/-- Session for the C1 witness: the peer-receive ring holds one complete
CHANNEL_DATA message for channel 2 (`size = 9`, payload `[42]`), and channel 2
is an open TO_FD channel with room. -/
def exC1 : FbAdbSh :=
  { nrch := 3
    ch := [openCh ChanDir.toFd 64 [1, 0, 9, 0, 2, 0, 0, 0, 42]
          , openCh ChanDir.toFd 64 [], openCh ChanDir.toFd 16 []]
    max_outgoing_msg := 64 }

/-- Witness for C1: processing the message splices `[42]` into channel 2's
ring and empties the peer-receive ring. -/
theorem c1_channel_data_witness :
    ∃ sh2, fb_adb_sh_process_msg exC1 { type := 1, size := 9 } = Except.ok sh2 ∧
      (chAt sh2 2).rb.data = [42] ∧ (chAt sh2 FROM_PEER).rb.data = [] := by
  have h := c1_channel_data exC1 { type := 1, size := 9 } (by decide) (by decide)
  have h2 := ((((h.2 (by decide)).2 (by decide) (by decide)).2 (by decide)).2
    (by decide)).2 (by decide)
  obtain ⟨sh2, hres, hdata, _, hpeer, _⟩ := h2
  refine ⟨sh2, hres, ?_, ?_⟩
  · rw [show (dataHeaderMsg exC1).channel = 2 from by decide] at hdata
    rw [hdata]
    decide
  · rw [hpeer]
    decide

/-! ## C6: xmit_data -/

/-- The payload size `XMIN(avail, maxoutmsg - sizeof (m))` chosen by
`xmit_data`. -/
def xmitPayloadSz (sh : FbAdbSh) (chno : Nat) : Nat :=
  min (ringbuf_size (chAt sh chno).rb) (fb_adb_maxoutmsg sh - sizeof_msg_channel_data)

/-- The payload bytes `xmit_data` gathers from the head of the channel's ring. -/
def xmitPayload (sh : FbAdbSh) (chno : Nat) : List Nat :=
  (chAt sh chno).rb.data.take (xmitPayloadSz sh chno)

/-- Session refuting C6 as stated: user channel 2 is FROM_FD with one buffered
byte, but the outgoing budget is exactly `sizeof(msg_channel_data)`. -/
def exC6 : FbAdbSh :=
  { nrch := 3
    ch := [openCh ChanDir.toFd 16 [], openCh ChanDir.toFd 64 []
          , openCh ChanDir.fromFd 4 [7]]
    max_outgoing_msg := 8 }

/-- C6 counterexample: channel 2 satisfies every hypothesis of the claim
(user channel, direction FROM_FD, `c.rb.size() > 0`), yet with budget
`min(max_outgoing_msg, TO_PEER room) = 8 = sizeof(msg_channel_data)` the code
requires `maxoutmsg > sizeof (m)` and therefore frames no CHANNEL_DATA at all
and changes nothing — the claim instead demands exactly one frame (of payload
length `min(1, 8 - 8) = 0`). -/
theorem c6_counterexample :
    NR_SPECIAL_CH < 2 ∧ (chAt exC6 2).dir = ChanDir.fromFd ∧
      0 < ringbuf_size (chAt exC6 2).rb ∧ fb_adb_maxoutmsg exC6 = sizeof_msg_channel_data ∧
      (xmit_data 2 exC6).2 = [] ∧ (xmit_data 2 exC6).1 = exC6 := by
  decide

/-- C6 amended: for a user FROM_FD channel with buffered bytes, when the
budget `min(max_outgoing_msg, TO_PEER room)` is at most
`sizeof(msg_channel_data)` the code defers — it frames nothing and changes
nothing; when the budget exceeds `sizeof(msg_channel_data)`, `xmit_data`
frames exactly one CHANNEL_DATA whose payload length is
`min(c.rb.size(), budget - sizeof(msg_channel_data))`, consumes exactly that
many bytes from the head of `c.rb`, and the emitted message's u16 `size`
field equals `sizeof(msg_channel_data)` plus the payload length whenever that
sum fits in a u16. -/
theorem c6_amended (sh : FbAdbSh) (chno : Nat)
    (hch : NR_SPECIAL_CH < chno) (hlt : chno < sh.ch.length)
    (hdir : (chAt sh chno).dir = ChanDir.fromFd)
    (havail : 0 < ringbuf_size (chAt sh chno).rb) :
    (fb_adb_maxoutmsg sh ≤ sizeof_msg_channel_data → xmit_data chno sh = (sh, [])) ∧
    (sizeof_msg_channel_data < fb_adb_maxoutmsg sh →
      (xmit_data chno sh).2 = [Frame.data chno (xmitPayload sh chno)] ∧
      (xmitPayload sh chno).length = xmitPayloadSz sh chno ∧
      (chAt (xmit_data chno sh).1 chno).rb.data =
        (chAt sh chno).rb.data.drop (xmitPayloadSz sh chno) ∧
      (chAt (xmit_data chno sh).1 chno).rb.capacity = (chAt sh chno).rb.capacity ∧
      (sizeof_msg_channel_data + xmitPayloadSz sh chno < 65536 →
        Frame.sizeField (Frame.data chno (xmitPayload sh chno)) =
          sizeof_msg_channel_data + xmitPayloadSz sh chno)) := by
  have hne : ¬ (chAt sh chno).dir ≠ ChanDir.fromFd := by simp [hdir]
  constructor
  · intro hbud
    simp [xmit_data, hne, show ¬ sizeof_msg_channel_data < fb_adb_maxoutmsg sh from by omega]
  · intro hbud
    have hto : chno ≠ TO_PEER := by
      simp only [NR_SPECIAL_CH] at hch
      simp only [TO_PEER]
      omega
    have hguard : sizeof_msg_channel_data < fb_adb_maxoutmsg sh ∧
        0 < ringbuf_size (chAt sh chno).rb := ⟨hbud, havail⟩
    have hres : xmit_data chno sh =
        (modifyCh (emitFrame sh (Frame.data chno (xmitPayload sh chno))) chno
          (fun cc => { cc with rb := ringbuf_note_removed cc.rb (xmitPayloadSz sh chno) }),
         [Frame.data chno (xmitPayload sh chno)]) := by
      simp [xmit_data, hne, hguard, xmitPayload, xmitPayloadSz, ringbuf_readable]
    have hem : chAt (emitFrame sh (Frame.data chno (xmitPayload sh chno))) chno =
        chAt sh chno := by
      unfold emitFrame
      rw [chAt_modifyCh, if_neg (fun hc => hto hc.1.symm)]
    have hself : chAt (modifyCh (emitFrame sh (Frame.data chno (xmitPayload sh chno))) chno
          (fun cc => { cc with rb := ringbuf_note_removed cc.rb (xmitPayloadSz sh chno) })) chno =
        { chAt sh chno with rb := ringbuf_note_removed (chAt sh chno).rb (xmitPayloadSz sh chno) } := by
      rw [chAt_modifyCh, if_pos ⟨rfl, by simpa [emitFrame, length_modifyCh] using hlt⟩, hem]
    have hres1 : chAt (xmit_data chno sh).1 chno =
        { chAt sh chno with rb := ringbuf_note_removed (chAt sh chno).rb (xmitPayloadSz sh chno) } := by
      rw [hres]
      exact hself
    refine ⟨by rw [hres], ?_, ?_, ?_, fun hfit => ?_⟩
    · simp only [xmitPayload, xmitPayloadSz, List.length_take, ringbuf_size]
      omega
    · rw [hres1]
      rfl
    · rw [hres1]
      rfl
    · simp only [Frame.sizeField, encodeFrame, parseHeader, u16bytes, byteAt, le16]
      have hlen : (xmitPayload sh chno).length = xmitPayloadSz sh chno := by
        simp only [xmitPayload, xmitPayloadSz, List.length_take, ringbuf_size]
        omega
      rw [hlen]
      simp only [sizeof_msg_channel_data] at hfit ⊢
      simp [List.getD]
      omega

/-- Session for the C6 witness: budget 10 so only 2 of the 3 buffered bytes
fit one frame. -/
def exC6b : FbAdbSh :=
  { nrch := 3
    ch := [openCh ChanDir.toFd 16 [], openCh ChanDir.toFd 64 []
          , openCh ChanDir.fromFd 4 [7, 8, 9]]
    max_outgoing_msg := 10 }

/-- Witness for the amended C6: with budget 10, exactly one DATA frame of
payload `[7, 8]` is emitted, `[9]` remains buffered, and the frame's size
field is 10. -/
theorem c6_amended_witness :
    (xmit_data 2 exC6b).2 = [Frame.data 2 [7, 8]] ∧
      (chAt (xmit_data 2 exC6b).1 2).rb.data = [9] ∧
      Frame.sizeField (Frame.data 2 [7, 8]) = 10 := by
  have h := (c6_amended exC6b 2 (by decide) (by decide) (by decide) (by decide)).2
    (by decide)
  refine ⟨?_, ?_, ?_⟩
  · rw [h.1]
    decide
  · rw [h.2.2.1]
    decide
  · rw [show Frame.data 2 [7, 8] = Frame.data 2 (xmitPayload exC6b 2) from by decide,
        show (10 : Nat) = sizeof_msg_channel_data + xmitPayloadSz exC6b 2 from by decide]
    exact h.2.2.2.2 (by decide)

/-! ## Frame shape and ordering lemmas for the pump -/

/-- Whether a frame is a CHANNEL_CLOSE frame. -/
def Frame.isClose : Frame → Bool
  | Frame.close _ => true
  | _ => false

theorem xmit_acks_shape (chno : Nat) (sh : FbAdbSh) :
    (xmit_acks chno sh).2 = [] ∨
      (xmit_acks chno sh).2 = [Frame.window chno (chAt sh chno).bytes_written] := by
  by_cases h : 0 < (chAt sh chno).bytes_written ∧
      sizeof_msg_channel_window ≤ fb_adb_maxoutmsg sh
  · right
    simp [xmit_acks, h]
  · left
    simp [xmit_acks, h]

theorem xmit_data_shape (chno : Nat) (sh : FbAdbSh) :
    (xmit_data chno sh).2 = [] ∨ ∃ p, (xmit_data chno sh).2 = [Frame.data chno p] := by
  by_cases hd : (chAt sh chno).dir ≠ ChanDir.fromFd
  · left
    simp [xmit_data, hd]
  · by_cases hg : sizeof_msg_channel_data < fb_adb_maxoutmsg sh ∧
        0 < ringbuf_size (chAt sh chno).rb
    · right
      refine ⟨ringbuf_readable (chAt sh chno).rb (min (ringbuf_size (chAt sh chno).rb)
        (fb_adb_maxoutmsg sh - sizeof_msg_channel_data)), ?_⟩
      simp [xmit_data, hd, hg]
    · left
      simp [xmit_data, hd, hg]

theorem xmit_eof_shape (chno : Nat) (sh : FbAdbSh) :
    (xmit_eof chno sh).2 = [] ∨ (xmit_eof chno sh).2 = [Frame.close chno] := by
  by_cases h : (chAt sh chno).fdh = false ∧ (chAt sh chno).sent_eof = false ∧
      ringbuf_size (chAt sh chno).rb = 0 ∧
      sizeof_msg_channel_close ≤ fb_adb_maxoutmsg sh
  · right
    simp [xmit_eof, h]
  · left
    simp [xmit_eof, h]

theorem serviceChannel_shape (sh : FbAdbSh) (chno : Nat) :
    (serviceChannel sh chno).2 = [] ∨
      (∃ p, (serviceChannel sh chno).2 = [Frame.data chno p]) ∨
      (serviceChannel sh chno).2 = [Frame.close chno] ∨
      (∃ p, (serviceChannel sh chno).2 = [Frame.data chno p, Frame.close chno]) := by
  have hfr : (serviceChannel sh chno).2 =
      (if NR_SPECIAL_CH < chno then xmit_data chno sh else (sh, [])).2 ++
        (xmit_eof chno (do_pending_close chno
          (if NR_SPECIAL_CH < chno then xmit_data chno sh else (sh, [])).1)).2 := rfl
  by_cases hu : NR_SPECIAL_CH < chno
  · rw [hfr]
    simp only [if_pos hu]
    rcases xmit_data_shape chno sh with h1 | ⟨p, h1⟩ <;>
      rcases xmit_eof_shape chno (do_pending_close chno (xmit_data chno sh).1) with h2 | h2 <;>
      simp [h1, h2]
  · rw [hfr]
    simp only [if_neg hu]
    rcases xmit_eof_shape chno (do_pending_close chno sh) with h2 | h2 <;> simp [h2]

theorem serviceChannel_mem (sh : FbAdbSh) (chno : Nat) :
    ∀ f ∈ (serviceChannel sh chno).2, f.isWindow = false ∧ f.channel = chno := by
  intro f hf
  rcases serviceChannel_shape sh chno with h | ⟨p, h⟩ | h | ⟨p, h⟩ <;> rw [h] at hf <;>
    simp at hf <;> rcases hf with rfl | rfl <;>
    simp [Frame.isWindow, Frame.channel]

theorem xmit_acks_mem (chno : Nat) (sh : FbAdbSh) :
    ∀ f ∈ (xmit_acks chno sh).2, f.isWindow = true ∧ f.channel = chno := by
  intro f hf
  rcases xmit_acks_shape chno sh with h | h <;> rw [h] at hf <;> simp at hf
  subst hf
  simp [Frame.isWindow, Frame.channel]

theorem runAcksFrom_mem (l : List Nat) :
    ∀ (sh : FbAdbSh), ∀ f ∈ (runAcksFrom sh l).2, f.isWindow = true ∧ f.channel ∈ l := by
  induction l with
  | nil =>
    intro sh f hf
    simp [runAcksFrom] at hf
  | cons chno rest ih =>
    intro sh f hf
    have : f ∈ (xmit_acks chno sh).2 ∨ f ∈ (runAcksFrom (xmit_acks chno sh).1 rest).2 := by
      simpa [runAcksFrom] using hf
    rcases this with h | h
    · have := xmit_acks_mem chno sh f h
      exact ⟨this.1, by simp [this.2]⟩
    · have := ih (xmit_acks chno sh).1 f h
      exact ⟨this.1, by simp [this.2]⟩

theorem runServiceFrom_mem (l : List Nat) :
    ∀ (sh : FbAdbSh), ∀ f ∈ (runServiceFrom sh l).2, f.isWindow = false ∧ f.channel ∈ l := by
  induction l with
  | nil =>
    intro sh f hf
    simp [runServiceFrom] at hf
  | cons chno rest ih =>
    intro sh f hf
    have : f ∈ (serviceChannel sh chno).2 ∨
        f ∈ (runServiceFrom (serviceChannel sh chno).1 rest).2 := by
      simpa [runServiceFrom] using hf
    rcases this with h | h
    · have := serviceChannel_mem sh chno f h
      exact ⟨this.1, by simp [this.2]⟩
    · have := ih (serviceChannel sh chno).1 f h
      exact ⟨this.1, by simp [this.2]⟩

theorem runAcksFrom_sorted (l : List Nat) :
    ∀ (sh : FbAdbSh), l.Pairwise (· < ·) →
      ((runAcksFrom sh l).2).Pairwise (fun a b => a.channel < b.channel) := by
  induction l with
  | nil =>
    intro sh _
    simp [runAcksFrom]
  | cons chno rest ih =>
    intro sh hp
    have hp1 : ∀ x ∈ rest, chno < x := (List.pairwise_cons.mp hp).1
    have hp2 : rest.Pairwise (· < ·) := (List.pairwise_cons.mp hp).2
    have hfr : (runAcksFrom sh (chno :: rest)).2 =
        (xmit_acks chno sh).2 ++ (runAcksFrom (xmit_acks chno sh).1 rest).2 := rfl
    rw [hfr, List.pairwise_append]
    refine ⟨?_, ih _ hp2, ?_⟩
    · rcases xmit_acks_shape chno sh with h | h <;> simp [h]
    · intro a ha b hb
      have ha2 := (xmit_acks_mem chno sh a ha).2
      have hb2 := (runAcksFrom_mem rest _ b hb).2
      rw [ha2]
      exact hp1 _ hb2

theorem runServiceFrom_sorted (l : List Nat) :
    ∀ (sh : FbAdbSh), l.Pairwise (· < ·) →
      ((runServiceFrom sh l).2).Pairwise (fun a b =>
        a.channel < b.channel ∨
          (a.channel = b.channel ∧ a.isData = true ∧ b.isClose = true)) := by
  induction l with
  | nil =>
    intro sh _
    simp [runServiceFrom]
  | cons chno rest ih =>
    intro sh hp
    have hp1 : ∀ x ∈ rest, chno < x := (List.pairwise_cons.mp hp).1
    have hp2 : rest.Pairwise (· < ·) := (List.pairwise_cons.mp hp).2
    have hfr : (runServiceFrom sh (chno :: rest)).2 =
        (serviceChannel sh chno).2 ++ (runServiceFrom (serviceChannel sh chno).1 rest).2 := rfl
    rw [hfr, List.pairwise_append]
    refine ⟨?_, ih _ hp2, ?_⟩
    · rcases serviceChannel_shape sh chno with h | ⟨p, h⟩ | h | ⟨p, h⟩ <;> rw [h] <;>
        simp [Frame.channel, Frame.isData, Frame.isClose]
    · intro a ha b hb
      have ha2 := (serviceChannel_mem sh chno a ha).2
      have hb2 := (runServiceFrom_mem rest _ b hb).2
      left
      rw [ha2]
      exact hp1 _ hb2

theorem io_loop_pump_ok (sh sh1 : FbAdbSh) (fs : List Frame)
    (h : io_loop_pump sh = Except.ok (sh1, fs)) :
    ∃ shd, drainLoop (ringbuf_size (chAt sh FROM_PEER).rb + 1) sh = Except.ok shd ∧
      sh1 = (runServiceFrom (runAcksFrom shd (List.range shd.nrch)).1
        (List.range shd.nrch)).1 ∧
      fs = (runAcksFrom shd (List.range shd.nrch)).2 ++
        (runServiceFrom (runAcksFrom shd (List.range shd.nrch)).1
          (List.range shd.nrch)).2 := by
  unfold io_loop_pump at h
  cases hd : drainLoop (ringbuf_size (chAt sh FROM_PEER).rb + 1) sh with
  | error e =>
    rw [hd] at h
    exact absurd h (by simp)
  | ok shd =>
    rw [hd] at h
    simp only [Except.ok.injEq] at h
    have h1 : sh1 = (pumpPhase2 shd).1 := by rw [h]
    have h2 : fs = (pumpPhase2 shd).2 := by rw [h]
    exact ⟨shd, rfl, h1, h2⟩

/-! ## C5: acks precede data within one pump iteration -/

/-- C5: in every completed `io_loop_pump` iteration, every CHANNEL_WINDOW ack
frame appended to the `TO_PEER` ring precedes every CHANNEL_DATA frame of the
same iteration: the trace never has a WINDOW frame after a DATA frame,
because the pump runs the `xmit_acks` loop over all channels before the
`xmit_data` loop. -/
theorem c5_acks_before_data (sh sh1 : FbAdbSh) (fs : List Frame)
    (h : io_loop_pump sh = Except.ok (sh1, fs)) :
    fs.Pairwise (fun a b => a.isData = true → b.isWindow = false) := by
  obtain ⟨shd, _, _, hfs⟩ := io_loop_pump_ok sh sh1 fs h
  rw [hfs, List.pairwise_append]
  refine ⟨?_, ?_, ?_⟩
  · apply List.pairwise_of_forall_mem_list
    intro a ha b hb
    intro hdata
    have := (runAcksFrom_mem _ _ a ha).1
    cases a <;> simp_all [Frame.isData, Frame.isWindow]
  · apply List.pairwise_of_forall_mem_list
    intro a ha b hb _
    exact (runServiceFrom_mem _ _ b hb).1
  · intro a ha b hb _
    exact (runServiceFrom_mem _ _ b hb).1

/-- Session for the C5 witness: channel 2 has an ack pending and nothing
else to send. -/
def exC5 : FbAdbSh :=
  { nrch := 3
    ch := [openCh ChanDir.toFd 16 [], openCh ChanDir.toFd 64 []
          , { openCh ChanDir.toFd 8 [] with bytes_written := 5 }]
    max_outgoing_msg := 64 }

/-- Witness for C5 at a concrete pump run emitting one WINDOW frame. -/
theorem c5_acks_before_data_witness :
    ([Frame.window 2 5] : List Frame).Pairwise
      (fun a b => a.isData = true → b.isWindow = false) := by
  refine c5_acks_before_data exC5
    { nrch := 3
      ch := [openCh ChanDir.toFd 16 []
            , openCh ChanDir.toFd 64 [2, 0, 12, 0, 2, 0, 0, 0, 5, 0, 0, 0]
            , openCh ChanDir.toFd 8 []]
      max_outgoing_msg := 64 } [Frame.window 2 5] (by decide)

/-! ## C4: ordering of frames within one pump iteration -/

/-- Session refuting C4: channel 3 has an ack pending while channel 2 has
data to send. -/
def exC4 : FbAdbSh :=
  { nrch := 4
    ch := [openCh ChanDir.toFd 16 [], openCh ChanDir.toFd 64 []
          , openCh ChanDir.fromFd 8 [9]
          , { openCh ChanDir.toFd 8 [] with bytes_written := 5 }]
    max_outgoing_msg := 64 }

/-- C4 counterexample: in one pump iteration the code first emits the WINDOW
ack for channel 3 (first loop over all channels) and only then the DATA frame
for channel 2 (second loop), so a frame for a higher-indexed channel precedes
a frame for a lower-indexed channel — the claimed single per-channel
ack-data-close-eof servicing order, and its ordering consequence, are false. -/
theorem c4_counterexample :
    Except.map Prod.snd (io_loop_pump exC4) =
      Except.ok [Frame.window 3 5, Frame.data 2 [9]] ∧
    ¬ ([Frame.window 3 5, Frame.data 2 [9]] : List Frame).Pairwise
      (fun a b => a.channel ≤ b.channel) := by
  decide

/-- C4 amended: after the drain phase, `io_loop_pump` services the channels
in two passes, not one — the first pass emits every ack (`xmit_acks` for
every channel in index order), the second pass runs `xmit_data` (user
channels only), `do_pending_close` and `xmit_eof` per channel in index order.
Consequently the iteration's frame trace splits into the ack frames followed
by the data/close frames; within each pass frames for lower-indexed channels
precede frames for higher-indexed ones, and inside one channel's service
step its DATA frame precedes its CLOSE frame. -/
theorem c4_amended (sh sh1 : FbAdbSh) (fs : List Frame)
    (h : io_loop_pump sh = Except.ok (sh1, fs)) :
    ∃ w s, fs = w ++ s ∧
      (∀ f ∈ w, f.isWindow = true) ∧
      (∀ f ∈ s, f.isWindow = false) ∧
      w.Pairwise (fun a b => a.channel < b.channel) ∧
      s.Pairwise (fun a b =>
        a.channel < b.channel ∨
          (a.channel = b.channel ∧ a.isData = true ∧ b.isClose = true)) := by
  obtain ⟨shd, _, _, hfs⟩ := io_loop_pump_ok sh sh1 fs h
  refine ⟨_, _, hfs, ?_, ?_, ?_, ?_⟩
  · intro f hf
    exact (runAcksFrom_mem _ _ f hf).1
  · intro f hf
    exact (runServiceFrom_mem _ _ f hf).1
  · exact runAcksFrom_sorted _ _ (List.pairwise_lt_range _)
  · exact runServiceFrom_sorted _ _ (List.pairwise_lt_range _)

/-- Witness for the amended C4 at the concrete two-frame pump run. -/
theorem c4_amended_witness :
    ∃ w s, ([Frame.window 3 5, Frame.data 2 [9]] : List Frame) = w ++ s ∧
      (∀ f ∈ w, f.isWindow = true) ∧
      (∀ f ∈ s, f.isWindow = false) ∧
      w.Pairwise (fun a b => a.channel < b.channel) ∧
      s.Pairwise (fun a b =>
        a.channel < b.channel ∨
          (a.channel = b.channel ∧ a.isData = true ∧ b.isClose = true)) := by
  refine c4_amended exC4
    { nrch := 4
      ch := [openCh ChanDir.toFd 16 []
            , openCh ChanDir.toFd 64
                [2, 0, 12, 0, 3, 0, 0, 0, 5, 0, 0, 0, 1, 0, 9, 0, 2, 0, 0, 0, 9]
            , openCh ChanDir.fromFd 8 []
            , openCh ChanDir.toFd 8 []]
      max_outgoing_msg := 64 } [Frame.window 3 5, Frame.data 2 [9]] (by decide)

/-! ## Dimension preservation and sent_eof monotonicity -/

/-- `sh->ch[k]->sent_eof` as a session observation. -/
def seo (sh : FbAdbSh) (k : Nat) : Bool := (chAt sh k).sent_eof

/-- The number of CHANNEL_CLOSE frames for channel `k` in a trace. -/
def closesFor (k : Nat) (fs : List Frame) : Nat :=
  fs.countP (fun f => decide (f = Frame.close k))

theorem seo_modifyCh (sh : FbAdbSh) (i : Nat) (f : Chan → Chan) (k : Nat)
    (hf : ∀ c, (f c).sent_eof = c.sent_eof) :
    seo (modifyCh sh i f) k = seo sh k := by
  unfold seo
  rw [chAt_modifyCh]
  by_cases h : i = k ∧ k < sh.ch.length
  · rw [if_pos h, hf, h.1]
  · rw [if_neg h]

theorem dims_modifyCh (sh : FbAdbSh) (i : Nat) (f : Chan → Chan) :
    (modifyCh sh i f).ch.length = sh.ch.length ∧ (modifyCh sh i f).nrch = sh.nrch :=
  ⟨length_modifyCh sh i f, rfl⟩

theorem data_handler_ok (sh : FbAdbSh) (m : MsgChannelData) (sh1 : FbAdbSh)
    (h : fb_adb_sh_process_msg_channel_data sh m = Except.ok sh1) :
    (∀ k, seo sh1 k = seo sh k) ∧ sh1.ch.length = sh.ch.length ∧ sh1.nrch = sh.nrch := by
  unfold fb_adb_sh_process_msg_channel_data at h
  dsimp only at h
  split_ifs at h with h1 h2 h3 h4
  · obtain rfl := (Except.ok.inj h).symm
    exact ⟨fun k => seo_modifyCh _ _ _ _ (fun c => rfl), length_modifyCh _ _ _, rfl⟩
  · obtain rfl := (Except.ok.inj h).symm
    refine ⟨fun k => ?_, by simp [length_modifyCh], rfl⟩
    refine (seo_modifyCh _ _ _ _ ?_).trans (seo_modifyCh _ _ _ _ ?_) <;> exact fun c => rfl

theorem window_handler_ok (sh : FbAdbSh) (m : MsgChannelWindow) (sh1 : FbAdbSh)
    (h : fb_adb_sh_process_msg_channel_window sh m = Except.ok sh1) :
    (∀ k, seo sh1 k = seo sh k) ∧ sh1.ch.length = sh.ch.length ∧ sh1.nrch = sh.nrch := by
  unfold fb_adb_sh_process_msg_channel_window at h
  dsimp only at h
  split_ifs at h with h1 h2 h3 h4
  · obtain rfl := (Except.ok.inj h).symm
    exact ⟨fun k => rfl, rfl, rfl⟩
  · obtain rfl := (Except.ok.inj h).symm
    exact ⟨fun k => seo_modifyCh _ _ _ _ (fun c => rfl), length_modifyCh _ _ _, rfl⟩

theorem close_handler_ok (sh : FbAdbSh) (m : MsgChannelClose) (sh1 : FbAdbSh)
    (h : fb_adb_sh_process_msg_channel_close sh m = Except.ok sh1) :
    (∀ k, seo sh k = true → seo sh1 k = true) ∧
      sh1.ch.length = sh.ch.length ∧ sh1.nrch = sh.nrch := by
  unfold fb_adb_sh_process_msg_channel_close at h
  split_ifs at h with h1
  · obtain rfl := (Except.ok.inj h).symm
    exact ⟨fun k hk => hk, rfl, rfl⟩
  · obtain rfl := (Except.ok.inj h).symm
    refine ⟨fun k hk => ?_, length_modifyCh _ _ _, rfl⟩
    unfold seo
    rw [chAt_modifyCh]
    by_cases hc : m.channel = k ∧ k < sh.ch.length
    · rw [if_pos hc]
      rfl
    · rw [if_neg hc]
      exact hk

theorem read_cmdmsg_ok (sh : FbAdbSh) (mhdr : Msg) (msz : Nat) (r : FbAdbSh × List Nat)
    (h : read_cmdmsg sh mhdr msz = Except.ok r) :
    (∀ k, seo r.1 k = seo sh k) ∧ r.1.ch.length = sh.ch.length ∧ r.1.nrch = sh.nrch := by
  unfold read_cmdmsg at h
  split_ifs at h with h1
  obtain rfl := (Except.ok.inj h).symm
  exact ⟨fun k => seo_modifyCh _ _ _ _ (fun c => rfl), length_modifyCh _ _ _, rfl⟩

theorem process_msg_ok (sh : FbAdbSh) (mhdr : Msg) (sh1 : FbAdbSh)
    (h : fb_adb_sh_process_msg sh mhdr = Except.ok sh1) :
    (∀ k, seo sh k = true → seo sh1 k = true) ∧
      sh1.ch.length = sh.ch.length ∧ sh1.nrch = sh.nrch := by
  unfold fb_adb_sh_process_msg at h
  dsimp only at h
  split_ifs at h with h1 h2 h3 h4
  · have hd := data_handler_ok _ _ _ h
    refine ⟨fun k hk => ?_, ?_, ?_⟩
    · have e2 : seo (modifyCh sh FROM_PEER (fun cc => { cc with rb := ringbuf_note_removed cc.rb sizeof_msg_channel_data })) k = seo sh k :=
        seo_modifyCh _ _ _ _ (fun c => rfl)
      rw [hd.1 k, e2]
      exact hk
    · rw [hd.2.1, length_modifyCh]
    · exact hd.2.2
  · cases hr : read_cmdmsg sh mhdr sizeof_msg_channel_window with
    | error e =>
      rw [hr] at h
      exact absurd h (by simp)
    | ok r =>
      rw [hr] at h
      simp only at h
      have h0 := read_cmdmsg_ok _ _ _ _ hr
      have hw := window_handler_ok _ _ _ h
      exact ⟨fun k hk => by rw [hw.1 k, h0.1 k]; exact hk,
        by rw [hw.2.1, h0.2.1], by rw [hw.2.2, h0.2.2]⟩
  · cases hr : read_cmdmsg sh mhdr sizeof_msg_channel_close with
    | error e =>
      rw [hr] at h
      exact absurd h (by simp)
    | ok r =>
      rw [hr] at h
      simp only at h
      have h0 := read_cmdmsg_ok _ _ _ _ hr
      have hw := close_handler_ok _ _ _ h
      refine ⟨fun k hk => hw.1 k (by rw [h0.1 k]; exact hk),
        by rw [hw.2.1, h0.2.1], by rw [hw.2.2, h0.2.2]⟩

theorem drainLoop_ok (fuel : Nat) :
    ∀ (sh sh1 : FbAdbSh), drainLoop fuel sh = Except.ok sh1 →
      (∀ k, seo sh k = true → seo sh1 k = true) ∧
        sh1.ch.length = sh.ch.length ∧ sh1.nrch = sh.nrch := by
  induction fuel with
  | zero =>
    intro sh sh1 h
    obtain rfl := (Except.ok.inj h).symm
    exact ⟨fun k hk => hk, rfl, rfl⟩
  | succ fuel ih =>
    intro sh sh1 h
    unfold drainLoop at h
    cases hd : detect_msg (chAt sh FROM_PEER).rb with
    | error e =>
      rw [hd] at h
      exact absurd h (by simp)
    | ok o =>
      rw [hd] at h
      cases o with
      | none =>
        simp only at h
        obtain rfl := (Except.ok.inj h).symm
        exact ⟨fun k hk => hk, rfl, rfl⟩
      | some mhdr =>
        simp only at h
        cases hp : fb_adb_sh_process_msg sh mhdr with
        | error e =>
          rw [hp] at h
          exact absurd h (by simp)
        | ok shm =>
          rw [hp] at h
          have h1 := process_msg_ok _ _ _ hp
          have h2 := ih _ _ h
          exact ⟨fun k hk => h2.1 k (h1.1 k hk),
            by rw [h2.2.1, h1.2.1], by rw [h2.2.2, h1.2.2]⟩

/-! ## Close-frame discipline of the framing loops -/

theorem closesFor_append (k : Nat) (a b : List Frame) :
    closesFor k (a ++ b) = closesFor k a + closesFor k b :=
  List.countP_append _ a b

theorem closesFor_zero (k : Nat) (fs : List Frame)
    (h : ∀ f ∈ fs, f ≠ Frame.close k) : closesFor k fs = 0 := by
  apply List.countP_eq_zero.mpr
  intro f hf
  simp [h f hf]

theorem seo_emitFrame (sh : FbAdbSh) (f : Frame) (k : Nat) :
    seo (emitFrame sh f) k = seo sh k :=
  seo_modifyCh _ _ _ _ (fun c => rfl)

theorem dims_emitFrame (sh : FbAdbSh) (f : Frame) :
    (emitFrame sh f).ch.length = sh.ch.length ∧ (emitFrame sh f).nrch = sh.nrch :=
  dims_modifyCh _ _ _

theorem xmit_acks_seo (chno : Nat) (sh : FbAdbSh) (k : Nat) :
    seo (xmit_acks chno sh).1 k = seo sh k := by
  by_cases h : 0 < (chAt sh chno).bytes_written ∧
      sizeof_msg_channel_window ≤ fb_adb_maxoutmsg sh
  · have hres : (xmit_acks chno sh).1 =
        modifyCh (emitFrame sh (Frame.window chno (chAt sh chno).bytes_written)) chno
          (fun cc => { cc with bytes_written := 0 }) := by
      simp [xmit_acks, h]
    rw [hres]
    refine (seo_modifyCh _ _ _ _ ?_).trans (seo_emitFrame _ _ _)
    exact fun c => rfl
  · simp [xmit_acks, h]

theorem xmit_acks_dims (chno : Nat) (sh : FbAdbSh) :
    ((xmit_acks chno sh).1).ch.length = sh.ch.length ∧
      ((xmit_acks chno sh).1).nrch = sh.nrch := by
  by_cases h : 0 < (chAt sh chno).bytes_written ∧
      sizeof_msg_channel_window ≤ fb_adb_maxoutmsg sh
  · have hres : (xmit_acks chno sh).1 =
        modifyCh (emitFrame sh (Frame.window chno (chAt sh chno).bytes_written)) chno
          (fun cc => { cc with bytes_written := 0 }) := by
      simp [xmit_acks, h]
    rw [hres]
    exact ⟨by simp [length_modifyCh, emitFrame], rfl⟩
  · simp [xmit_acks, h]

theorem xmit_data_seo (chno : Nat) (sh : FbAdbSh) (k : Nat) :
    seo (xmit_data chno sh).1 k = seo sh k := by
  by_cases hd : (chAt sh chno).dir ≠ ChanDir.fromFd
  · simp [xmit_data, hd]
  · by_cases hg : sizeof_msg_channel_data < fb_adb_maxoutmsg sh ∧
        0 < ringbuf_size (chAt sh chno).rb
    · simp only [xmit_data, if_neg hd, if_pos hg]
      refine (seo_modifyCh _ _ _ _ ?_).trans (seo_emitFrame _ _ _)
      exact fun c => rfl
    · simp [xmit_data, hd, hg]

theorem xmit_data_dims (chno : Nat) (sh : FbAdbSh) :
    ((xmit_data chno sh).1).ch.length = sh.ch.length ∧
      ((xmit_data chno sh).1).nrch = sh.nrch := by
  by_cases hd : (chAt sh chno).dir ≠ ChanDir.fromFd
  · simp [xmit_data, hd]
  · by_cases hg : sizeof_msg_channel_data < fb_adb_maxoutmsg sh ∧
        0 < ringbuf_size (chAt sh chno).rb
    · have hres : (xmit_data chno sh).1 =
          modifyCh (emitFrame sh (Frame.data chno (ringbuf_readable (chAt sh chno).rb
            (min (ringbuf_size (chAt sh chno).rb)
              (fb_adb_maxoutmsg sh - sizeof_msg_channel_data))))) chno
            (fun cc => { cc with rb := ringbuf_note_removed cc.rb (min (ringbuf_size (chAt sh chno).rb) (fb_adb_maxoutmsg sh - sizeof_msg_channel_data)) }) := by
        simp [xmit_data, hd, hg]
      rw [hres]
      exact ⟨by simp [length_modifyCh, emitFrame], rfl⟩
    · simp [xmit_data, hd, hg]

theorem do_pending_close_seo (chno : Nat) (sh : FbAdbSh) (k : Nat) :
    seo (do_pending_close chno sh) k = seo sh k := by
  by_cases h : (chAt sh chno).dir = ChanDir.toFd ∧ (chAt sh chno).fdh = true ∧
      ringbuf_size (chAt sh chno).rb = 0 ∧ (chAt sh chno).pending_close = true
  · simp only [do_pending_close, if_pos h]
    exact seo_modifyCh _ _ _ _ (fun c => rfl)
  · simp [do_pending_close, h]

theorem do_pending_close_dims (chno : Nat) (sh : FbAdbSh) :
    (do_pending_close chno sh).ch.length = sh.ch.length ∧
      (do_pending_close chno sh).nrch = sh.nrch := by
  by_cases h : (chAt sh chno).dir = ChanDir.toFd ∧ (chAt sh chno).fdh = true ∧
      ringbuf_size (chAt sh chno).rb = 0 ∧ (chAt sh chno).pending_close = true
  · have hres : do_pending_close chno sh = modifyCh sh chno channel_close := by
      simp [do_pending_close, h]
    rw [hres]
    exact ⟨length_modifyCh _ _ _, rfl⟩
  · simp [do_pending_close, h]

theorem xmit_eof_dims (chno : Nat) (sh : FbAdbSh) :
    ((xmit_eof chno sh).1).ch.length = sh.ch.length ∧
      ((xmit_eof chno sh).1).nrch = sh.nrch := by
  by_cases h : (chAt sh chno).fdh = false ∧ (chAt sh chno).sent_eof = false ∧
      ringbuf_size (chAt sh chno).rb = 0 ∧
      sizeof_msg_channel_close ≤ fb_adb_maxoutmsg sh
  · have hres : (xmit_eof chno sh).1 =
        modifyCh (emitFrame sh (Frame.close chno)) chno
          (fun cc => { cc with sent_eof := true }) := by
      simp [xmit_eof, h]
    rw [hres]
    exact ⟨by simp [length_modifyCh, emitFrame], rfl⟩
  · simp [xmit_eof, h]

/-- The close discipline of `xmit_eof`: a CLOSE for `k` is emitted only from
a state where `sent_eof` is false, and emitting it sets `sent_eof`; a channel
whose `sent_eof` is already set emits nothing for itself and is never
touched. -/
theorem xmit_eof_discipline (chno : Nat) (sh : FbAdbSh) (k : Nat)
    (hlt : chno < sh.ch.length) :
    (seo sh k = true →
      seo (xmit_eof chno sh).1 k = true ∧ closesFor k (xmit_eof chno sh).2 = 0) ∧
    closesFor k (xmit_eof chno sh).2 ≤ 1 ∧
    (1 ≤ closesFor k (xmit_eof chno sh).2 → seo (xmit_eof chno sh).1 k = true) := by
  by_cases h : (chAt sh chno).fdh = false ∧ (chAt sh chno).sent_eof = false ∧
      ringbuf_size (chAt sh chno).rb = 0 ∧
      sizeof_msg_channel_close ≤ fb_adb_maxoutmsg sh
  · have hres1 : (xmit_eof chno sh).1 =
        modifyCh (emitFrame sh (Frame.close chno)) chno
          (fun cc => { cc with sent_eof := true }) := by
      simp [xmit_eof, h]
    have hres2 : (xmit_eof chno sh).2 = [Frame.close chno] := by
      simp [xmit_eof, h]
    by_cases hk : k = chno
    · subst hk
      have hcl : closesFor k (xmit_eof k sh).2 = 1 := by
        rw [hres2]
        simp [closesFor]
      have hseo : seo (xmit_eof k sh).1 k = true := by
        rw [hres1]
        unfold seo
        rw [chAt_modifyCh,
          if_pos ⟨rfl, by rw [(dims_emitFrame sh _).1]; exact hlt⟩]
      refine ⟨fun hs => ?_, by omega, fun _ => hseo⟩
      unfold seo at hs
      rw [h.2.1] at hs
      exact absurd hs (by simp)
    · have hcl : closesFor k (xmit_eof chno sh).2 = 0 := by
        rw [hres2]
        apply closesFor_zero
        intro f hf
        simp at hf
        subst hf
        simp
        exact fun hc => hk hc.symm
      have hseo : seo (xmit_eof chno sh).1 k = seo sh k := by
        rw [hres1]
        unfold seo
        rw [chAt_modifyCh, if_neg (fun hc => hk hc.1.symm)]
        exact seo_emitFrame sh (Frame.close chno) k
      refine ⟨fun hs => ⟨by rw [hseo]; exact hs, hcl⟩, by omega, fun hone => ?_⟩
      rw [hcl] at hone
      exact absurd hone (by omega)
  · have hres : xmit_eof chno sh = (sh, []) := by
      simp [xmit_eof, h]
    rw [hres]
    exact ⟨fun hs => ⟨hs, rfl⟩, by simp [closesFor], fun hone => absurd hone (by simp [closesFor])⟩

theorem xmit_data_closes (chno : Nat) (sh : FbAdbSh) (k : Nat) :
    closesFor k (xmit_data chno sh).2 = 0 := by
  rcases xmit_data_shape chno sh with h | ⟨p, h⟩ <;> rw [h] <;> simp [closesFor]

theorem xmit_acks_closes (chno : Nat) (sh : FbAdbSh) (k : Nat) :
    closesFor k (xmit_acks chno sh).2 = 0 := by
  rcases xmit_acks_shape chno sh with h | h <;> rw [h] <;> simp [closesFor]

theorem serviceChannel_discipline (sh : FbAdbSh) (chno k : Nat)
    (hlt : chno < sh.ch.length) :
    (seo sh k = true → seo (serviceChannel sh chno).1 k = true ∧
      closesFor k (serviceChannel sh chno).2 = 0) ∧
    closesFor k (serviceChannel sh chno).2 ≤ 1 ∧
    (1 ≤ closesFor k (serviceChannel sh chno).2 →
      seo (serviceChannel sh chno).1 k = true) ∧
    (serviceChannel sh chno).1.ch.length = sh.ch.length ∧
    (serviceChannel sh chno).1.nrch = sh.nrch := by
  have hdseo : ∀ j,
      seo (if NR_SPECIAL_CH < chno then xmit_data chno sh else (sh, [])).1 j = seo sh j := by
    by_cases hu : NR_SPECIAL_CH < chno
    · simp only [if_pos hu]
      exact fun j => xmit_data_seo chno sh j
    · simp [hu]
  have hddims :
      (if NR_SPECIAL_CH < chno then xmit_data chno sh else (sh, [])).1.ch.length = sh.ch.length ∧
      (if NR_SPECIAL_CH < chno then xmit_data chno sh else (sh, [])).1.nrch = sh.nrch := by
    by_cases hu : NR_SPECIAL_CH < chno
    · simp only [if_pos hu]
      exact xmit_data_dims chno sh
    · simp [hu]
  have hdcl : closesFor k (if NR_SPECIAL_CH < chno then xmit_data chno sh else (sh, [])).2 = 0 := by
    by_cases hu : NR_SPECIAL_CH < chno
    · simp only [if_pos hu]
      exact xmit_data_closes chno sh k
    · simp [hu, closesFor]
  have hpseo : ∀ j,
      seo (do_pending_close chno (if NR_SPECIAL_CH < chno then xmit_data chno sh else (sh, [])).1) j = seo sh j :=
    fun j => (do_pending_close_seo chno _ j).trans (hdseo j)
  have hpdims :
      (do_pending_close chno (if NR_SPECIAL_CH < chno then xmit_data chno sh else (sh, [])).1).ch.length = sh.ch.length ∧
      (do_pending_close chno (if NR_SPECIAL_CH < chno then xmit_data chno sh else (sh, [])).1).nrch = sh.nrch :=
    ⟨((do_pending_close_dims chno _).1).trans hddims.1,
     ((do_pending_close_dims chno _).2).trans hddims.2⟩
  have hlt2 : chno < (do_pending_close chno (if NR_SPECIAL_CH < chno then xmit_data chno sh else (sh, [])).1).ch.length := by
    rw [hpdims.1]
    exact hlt
  have hE := xmit_eof_discipline chno _ k hlt2
  have hEdims := xmit_eof_dims chno
    (do_pending_close chno (if NR_SPECIAL_CH < chno then xmit_data chno sh else (sh, [])).1)
  have hsnd : (serviceChannel sh chno).2 =
      (if NR_SPECIAL_CH < chno then xmit_data chno sh else (sh, [])).2 ++
        (xmit_eof chno (do_pending_close chno (if NR_SPECIAL_CH < chno then xmit_data chno sh else (sh, [])).1)).2 := rfl
  refine ⟨fun hk => ?_, ?_, fun h1 => ?_, ?_, ?_⟩
  · have hk2 := (hpseo k).trans hk
    obtain ⟨ha1, ha2⟩ := hE.1 hk2
    exact ⟨ha1, by rw [hsnd, closesFor_append, hdcl, ha2]⟩
  · rw [hsnd, closesFor_append, hdcl]
    simpa using hE.2.1
  · rw [hsnd, closesFor_append, hdcl] at h1
    simp at h1
    exact hE.2.2 h1
  · exact (hEdims.1).trans hpdims.1
  · exact (hEdims.2).trans hpdims.2

theorem runAcksFrom_seo (l : List Nat) :
    ∀ (sh : FbAdbSh) (j : Nat), seo (runAcksFrom sh l).1 j = seo sh j := by
  induction l with
  | nil => exact fun sh j => rfl
  | cons chno rest ih =>
    intro sh j
    exact (ih (xmit_acks chno sh).1 j).trans (xmit_acks_seo chno sh j)

theorem runAcksFrom_dims (l : List Nat) :
    ∀ (sh : FbAdbSh), (runAcksFrom sh l).1.ch.length = sh.ch.length ∧
      (runAcksFrom sh l).1.nrch = sh.nrch := by
  induction l with
  | nil => exact fun sh => ⟨rfl, rfl⟩
  | cons chno rest ih =>
    intro sh
    exact ⟨((ih (xmit_acks chno sh).1).1).trans (xmit_acks_dims chno sh).1,
      ((ih (xmit_acks chno sh).1).2).trans (xmit_acks_dims chno sh).2⟩

theorem runAcksFrom_closes (k : Nat) (l : List Nat) (sh : FbAdbSh) :
    closesFor k (runAcksFrom sh l).2 = 0 := by
  apply closesFor_zero
  intro f hf
  have hw := (runAcksFrom_mem l sh f hf).1
  cases f <;> simp_all [Frame.isWindow]

theorem runServiceFrom_discipline (l : List Nat) :
    ∀ (sh : FbAdbSh) (k : Nat), (∀ x ∈ l, x < sh.ch.length) →
      (seo sh k = true → seo (runServiceFrom sh l).1 k = true ∧
        closesFor k (runServiceFrom sh l).2 = 0) ∧
      closesFor k (runServiceFrom sh l).2 ≤ 1 ∧
      (1 ≤ closesFor k (runServiceFrom sh l).2 → seo (runServiceFrom sh l).1 k = true) ∧
      (runServiceFrom sh l).1.ch.length = sh.ch.length ∧
      (runServiceFrom sh l).1.nrch = sh.nrch := by
  induction l with
  | nil =>
    intro sh k _
    have h0 : closesFor k (runServiceFrom sh []).2 = 0 := rfl
    exact ⟨fun hk => ⟨hk, h0⟩, by omega, fun h1 => absurd h1 (by omega), rfl, rfl⟩
  | cons chno rest ih =>
    intro sh k hl
    have hlt : chno < sh.ch.length := hl chno (by simp)
    have hS := serviceChannel_discipline sh chno k hlt
    have hrest : ∀ x ∈ rest, x < (serviceChannel sh chno).1.ch.length := by
      intro x hx
      rw [hS.2.2.2.1]
      exact hl x (by simp [hx])
    have hR := ih (serviceChannel sh chno).1 k hrest
    have hfst : (runServiceFrom sh (chno :: rest)).1 =
        (runServiceFrom (serviceChannel sh chno).1 rest).1 := rfl
    have hsnd : (runServiceFrom sh (chno :: rest)).2 =
        (serviceChannel sh chno).2 ++ (runServiceFrom (serviceChannel sh chno).1 rest).2 := rfl
    refine ⟨fun hk => ?_, ?_, fun h1 => ?_, ?_, ?_⟩
    · obtain ⟨hm1, hm2⟩ := hS.1 hk
      obtain ⟨hf1, hf2⟩ := hR.1 hm1
      rw [hfst, hsnd, closesFor_append, hm2, hf2]
      exact ⟨hf1, rfl⟩
    · rw [hsnd, closesFor_append]
      by_cases hc : 1 ≤ closesFor k (serviceChannel sh chno).2
      · have hm1 := hS.2.2.1 hc
        have := (hR.1 hm1).2
        have hb := hS.2.1
        omega
      · have hb := hR.2.1
        omega
    · rw [hfst]
      rw [hsnd, closesFor_append] at h1
      by_cases hc : 1 ≤ closesFor k (runServiceFrom (serviceChannel sh chno).1 rest).2
      · exact hR.2.2.1 hc
      · have hc1 : 1 ≤ closesFor k (serviceChannel sh chno).2 := by omega
        have hm1 := hS.2.2.1 hc1
        exact (hR.1 hm1).1
    · rw [hfst]
      exact (hR.2.2.2.1).trans hS.2.2.2.1
    · rw [hfst]
      exact (hR.2.2.2.2).trans hS.2.2.2.2

theorem pump_discipline (sh sh1 : FbAdbSh) (fs : List Frame) (k : Nat)
    (hwf : sh.nrch ≤ sh.ch.length)
    (h : io_loop_pump sh = Except.ok (sh1, fs)) :
    (seo sh k = true → seo sh1 k = true ∧ closesFor k fs = 0) ∧
    closesFor k fs ≤ 1 ∧
    (1 ≤ closesFor k fs → seo sh1 k = true) ∧
    sh1.ch.length = sh.ch.length ∧ sh1.nrch = sh.nrch := by
  obtain ⟨shd, hdr, hsh1, hfs⟩ := io_loop_pump_ok _ _ _ h
  have hD := drainLoop_ok _ _ _ hdr
  have hAseo := runAcksFrom_seo (List.range shd.nrch) shd
  have hAdims := runAcksFrom_dims (List.range shd.nrch) shd
  have hAcl := runAcksFrom_closes k (List.range shd.nrch) shd
  have hrange : ∀ x ∈ List.range shd.nrch,
      x < (runAcksFrom shd (List.range shd.nrch)).1.ch.length := by
    intro x hx
    rw [hAdims.1, hD.2.1]
    have hx2 : x < shd.nrch := List.mem_range.mp hx
    rw [hD.2.2] at hx2
    omega
  have hS := runServiceFrom_discipline (List.range shd.nrch)
    (runAcksFrom shd (List.range shd.nrch)).1 k hrange
  subst hsh1
  subst hfs
  refine ⟨fun hk => ?_, ?_, fun h1 => ?_, ?_, ?_⟩
  · have hk1 : seo shd k = true := hD.1 k hk
    have hk2 : seo (runAcksFrom shd (List.range shd.nrch)).1 k = true := by
      rw [hAseo k]
      exact hk1
    obtain ⟨hf1, hf2⟩ := hS.1 hk2
    exact ⟨hf1, by rw [closesFor_append, hAcl, hf2]⟩
  · rw [closesFor_append, hAcl]
    simpa using hS.2.1
  · rw [closesFor_append, hAcl] at h1
    simp at h1
    exact hS.2.2.1 h1
  · rw [hS.2.2.2.1, hAdims.1, hD.2.1]
  · rw [hS.2.2.2.2, hAdims.2, hD.2.2]

/-! ## Session traces -/

/-- Modelled from the spec: what the environment (`io_loop_do_io` and the
channel fd callbacks, which are not in the tree) may do between pump
iterations.  Per spec §4.2 the poll callbacks touch only `rb`, `window`,
`bytes_written`, `fdh` and `pending_close`; they never change the channel
count and never touch `sent_eof`. -/
def EnvStep (sh sh1 : FbAdbSh) : Prop :=
  sh1.nrch = sh.nrch ∧ sh1.ch.length = sh.ch.length ∧ ∀ j, seo sh1 j = seo sh j

/-- One step of the session: a pump iteration (with its emitted frames) or an
environment step (which emits no protocol frames). -/
inductive SessionStep : FbAdbSh → List Frame → FbAdbSh → Prop where
  | pump (sh sh1 : FbAdbSh) (fs : List Frame)
      (h : io_loop_pump sh = Except.ok (sh1, fs)) : SessionStep sh fs sh1
  | env (sh sh1 : FbAdbSh) (h : EnvStep sh sh1) : SessionStep sh [] sh1

/-- A whole session: a sequence of steps, with the concatenated frame trace. -/
inductive SessionTrace : FbAdbSh → List Frame → FbAdbSh → Prop where
  | refl (sh : FbAdbSh) : SessionTrace sh [] sh
  | step (sh sh1 sh2 : FbAdbSh) (fs fs1 : List Frame)
      (h : SessionStep sh fs sh1) (t : SessionTrace sh1 fs1 sh2) :
      SessionTrace sh (fs ++ fs1) sh2

theorem step_discipline (sh sh1 : FbAdbSh) (fs : List Frame) (k : Nat)
    (hwf : sh.nrch ≤ sh.ch.length) (h : SessionStep sh fs sh1) :
    (seo sh k = true → seo sh1 k = true ∧ closesFor k fs = 0) ∧
    closesFor k fs ≤ 1 ∧
    (1 ≤ closesFor k fs → seo sh1 k = true) ∧
    sh1.nrch ≤ sh1.ch.length := by
  cases h with
  | pump _ _ hp =>
    have hd := pump_discipline sh sh1 fs k hwf hp
    exact ⟨hd.1, hd.2.1, hd.2.2.1, by rw [hd.2.2.2.1, hd.2.2.2.2]; exact hwf⟩
  | env _ he =>
    have h0 : closesFor k ([] : List Frame) = 0 := rfl
    exact ⟨fun hk => ⟨by rw [he.2.2 k]; exact hk, h0⟩, by omega,
      fun h1 => absurd h1 (by omega),
      by rw [he.1, he.2.1]; exact hwf⟩

theorem trace_discipline (sh : FbAdbSh) (fs : List Frame) (sh1 : FbAdbSh)
    (ht : SessionTrace sh fs sh1) :
    ∀ k, sh.nrch ≤ sh.ch.length →
      (seo sh k = true → seo sh1 k = true ∧ closesFor k fs = 0) ∧
      closesFor k fs ≤ 1 ∧
      (1 ≤ closesFor k fs → seo sh1 k = true) := by
  induction ht with
  | refl sh =>
    intro k _
    exact ⟨fun hk => ⟨hk, rfl⟩, by simp [closesFor],
      fun h1 => absurd h1 (by simp [closesFor])⟩
  | step sh sha shb fsA fsB hstep htail ih =>
    intro k hwf
    have hA := step_discipline sh sha fsA k hwf hstep
    have hB := ih k hA.2.2.2
    refine ⟨fun hk => ?_, ?_, fun h1 => ?_⟩
    · obtain ⟨hm1, hm2⟩ := hA.1 hk
      obtain ⟨hf1, hf2⟩ := hB.1 hm1
      exact ⟨hf1, by rw [closesFor_append, hm2, hf2]⟩
    · rw [closesFor_append]
      by_cases hc : 1 ≤ closesFor k fsA
      · have hm1 := hA.2.2.1 hc
        have := (hB.1 hm1).2
        have hb := hA.2.1
        omega
      · have hb := hB.2.1
        omega
    · rw [closesFor_append] at h1
      by_cases hc : 1 ≤ closesFor k fsB
      · exact hB.2.2 hc
      · have hc1 : 1 ≤ closesFor k fsA := by omega
        have hm1 := hA.2.2.1 hc1
        exact (hB.1 hm1).1

/-! ## C9: at most one CHANNEL_CLOSE per channel -/

/-- C9: over an entire session (any interleaving of pump iterations and
environment steps) at most one CHANNEL_CLOSE frame is emitted for any
channel; `xmit_eof` frames a CLOSE exactly when the fd handle is gone,
`sent_eof` is still false, the ring is empty and the message fits the
outgoing budget, and in the same step it sets `sent_eof`; and no session
step ever resets `sent_eof` once it is true. -/
theorem c9_close_once (sh sh1 : FbAdbSh) (fs : List Frame) (k : Nat) :
    (sh.nrch ≤ sh.ch.length → SessionTrace sh fs sh1 → closesFor k fs ≤ 1) ∧
    (k < sh.ch.length →
      (chAt sh k).fdh = false → (chAt sh k).sent_eof = false →
      ringbuf_size (chAt sh k).rb = 0 →
      sizeof_msg_channel_close ≤ fb_adb_maxoutmsg sh →
      (xmit_eof k sh).2 = [Frame.close k] ∧ seo (xmit_eof k sh).1 k = true) ∧
    (¬ ((chAt sh k).fdh = false ∧ (chAt sh k).sent_eof = false ∧
        ringbuf_size (chAt sh k).rb = 0 ∧
        sizeof_msg_channel_close ≤ fb_adb_maxoutmsg sh) →
      xmit_eof k sh = (sh, [])) ∧
    (sh.nrch ≤ sh.ch.length →
      ∀ fs2 sh2, SessionStep sh fs2 sh2 → seo sh k = true → seo sh2 k = true) := by
  refine ⟨fun hwf ht => (trace_discipline sh fs sh1 ht k hwf).2.1,
    fun hlt h1 h2 h3 h4 => ?_, fun hng => ?_, fun hwf fs2 sh2 hstep hk => ?_⟩
  · have hg : (chAt sh k).fdh = false ∧ (chAt sh k).sent_eof = false ∧
        ringbuf_size (chAt sh k).rb = 0 ∧
        sizeof_msg_channel_close ≤ fb_adb_maxoutmsg sh := ⟨h1, h2, h3, h4⟩
    constructor
    · simp [xmit_eof, hg]
    · have hres1 : (xmit_eof k sh).1 =
          modifyCh (emitFrame sh (Frame.close k)) k
            (fun cc => { cc with sent_eof := true }) := by
        simp [xmit_eof, hg]
      rw [hres1]
      unfold seo
      rw [chAt_modifyCh, if_pos ⟨rfl, by rw [(dims_emitFrame sh _).1]; exact hlt⟩]
  · simp [xmit_eof, hng]
  · exact ((step_discipline sh sh2 fs2 k hwf hstep).1 hk).1

/-- Session for the C9 witness: user channel 2 has lost its fd with an empty
ring and no CLOSE sent yet. -/
def exC9 : FbAdbSh :=
  { nrch := 3
    ch := [openCh ChanDir.toFd 16 [], openCh ChanDir.toFd 64 []
          , { openCh ChanDir.toFd 8 [] with fdh := false }]
    max_outgoing_msg := 64 }

/-- The session after the pump emits `CLOSE{channel=2}`. -/
def exC9post : FbAdbSh :=
  { nrch := 3
    ch := [openCh ChanDir.toFd 16 [], openCh ChanDir.toFd 64 [3, 0, 8, 0, 2, 0, 0, 0]
          , { openCh ChanDir.toFd 8 [] with fdh := false, sent_eof := true }]
    max_outgoing_msg := 64 }

/-- Witness for C9: the concrete one-pump session trace emits exactly one
CLOSE for channel 2, and the theorem bounds its count. -/
theorem c9_close_once_witness : closesFor 2 [Frame.close 2] ≤ 1 := by
  have hp : io_loop_pump exC9 = Except.ok (exC9post, [Frame.close 2]) := by decide
  have htr : SessionTrace exC9 ([Frame.close 2] ++ []) exC9post :=
    SessionTrace.step exC9 exC9post exC9post [Frame.close 2] []
      (SessionStep.pump exC9 exC9post [Frame.close 2] hp)
      (SessionTrace.refl exC9post)
  exact (c9_close_once exC9 exC9post [Frame.close 2] 2).1 (by decide) (by simpa using htr)

/-! ## C3: sent_eof and later DATA frames -/

/-- The state of a FROM_FD channel after a CLOSE has been fully handled:
direction FROM_FD, fd handle gone, `sent_eof` set, ring drained.  From such a
state no pump operation can ever produce another DATA frame for the channel. -/
def QuietFrom (sh : FbAdbSh) (k : Nat) : Prop :=
  (chAt sh k).dir = ChanDir.fromFd ∧ (chAt sh k).fdh = false ∧
    (chAt sh k).sent_eof = true ∧ (chAt sh k).rb.data = []

theorem quiet_modifyCh_ne (sh : FbAdbSh) (i : Nat) (f : Chan → Chan) (k : Nat)
    (hik : i ≠ k) : QuietFrom (modifyCh sh i f) k ↔ QuietFrom sh k := by
  unfold QuietFrom
  rw [chAt_modifyCh, if_neg (fun hc => hik hc.1)]

theorem quiet_fields_modifyCh (sh : FbAdbSh) (i : Nat) (f : Chan → Chan) (k : Nat)
    (hf : ∀ c, (f c).dir = c.dir ∧ (f c).fdh = c.fdh ∧ (f c).sent_eof = c.sent_eof ∧
      (f c).rb.data = c.rb.data) :
    QuietFrom (modifyCh sh i f) k ↔ QuietFrom sh k := by
  unfold QuietFrom
  rw [chAt_modifyCh]
  by_cases h : i = k ∧ k < sh.ch.length
  · rw [if_pos h, (hf _).1, (hf _).2.1, (hf _).2.2.1, (hf _).2.2.2, h.1]
  · rw [if_neg h]

theorem xmit_acks_quiet (chno : Nat) (sh : FbAdbSh) (k : Nat) (hk : k ≠ TO_PEER)
    (hq : QuietFrom sh k) : QuietFrom (xmit_acks chno sh).1 k := by
  by_cases h : 0 < (chAt sh chno).bytes_written ∧
      sizeof_msg_channel_window ≤ fb_adb_maxoutmsg sh
  · have hres : (xmit_acks chno sh).1 =
        modifyCh (emitFrame sh (Frame.window chno (chAt sh chno).bytes_written)) chno
          (fun cc => { cc with bytes_written := 0 }) := by
      simp [xmit_acks, h]
    rw [hres]
    refine (quiet_fields_modifyCh _ _ _ _ ?_).mpr ?_
    · exact fun c => ⟨rfl, rfl, rfl, rfl⟩
    · unfold emitFrame
      exact (quiet_modifyCh_ne _ _ _ _ (fun hc => hk hc.symm)).mpr hq
  · simpa [xmit_acks, h] using hq

theorem xmit_data_quiet (chno : Nat) (sh : FbAdbSh) (k : Nat) (hk : k ≠ TO_PEER)
    (hq : QuietFrom sh k) :
    QuietFrom (xmit_data chno sh).1 k ∧ ∀ p, Frame.data k p ∉ (xmit_data chno sh).2 := by
  by_cases hck : chno = k
  · subst hck
    have h0 : ¬ (sizeof_msg_channel_data < fb_adb_maxoutmsg sh ∧
        0 < ringbuf_size (chAt sh chno).rb) := by
      intro hg
      have := hg.2
      rw [ringbuf_size, hq.2.2.2] at this
      exact absurd this (by simp)
    have hres : xmit_data chno sh = (sh, []) := by
      by_cases hd : (chAt sh chno).dir ≠ ChanDir.fromFd
      · simp [xmit_data, hd]
      · simp [xmit_data, hd, h0]
    rw [hres]
    exact ⟨hq, by simp⟩
  · refine ⟨?_, ?_⟩
    · by_cases hd : (chAt sh chno).dir ≠ ChanDir.fromFd
      · simpa [xmit_data, hd] using hq
      · by_cases hg : sizeof_msg_channel_data < fb_adb_maxoutmsg sh ∧
            0 < ringbuf_size (chAt sh chno).rb
        · have hres : (xmit_data chno sh).1 =
              modifyCh (emitFrame sh (Frame.data chno (ringbuf_readable (chAt sh chno).rb
                (min (ringbuf_size (chAt sh chno).rb)
                  (fb_adb_maxoutmsg sh - sizeof_msg_channel_data))))) chno
                (fun cc => { cc with rb := ringbuf_note_removed cc.rb (min (ringbuf_size (chAt sh chno).rb) (fb_adb_maxoutmsg sh - sizeof_msg_channel_data)) }) := by
            simp [xmit_data, hd, hg]
          rw [hres, quiet_modifyCh_ne _ _ _ _ hck]
          unfold emitFrame
          rw [quiet_modifyCh_ne _ _ _ _ (fun hc => hk hc.symm)]
          exact hq
        · simpa [xmit_data, hd, hg] using hq
    · intro p hp
      rcases xmit_data_shape chno sh with h | ⟨q, h⟩ <;> rw [h] at hp <;> simp at hp
      exact hck (by simpa using hp.1.symm)

theorem do_pending_close_quiet (chno : Nat) (sh : FbAdbSh) (k : Nat)
    (hq : QuietFrom sh k) : QuietFrom (do_pending_close chno sh) k := by
  by_cases h : (chAt sh chno).dir = ChanDir.toFd ∧ (chAt sh chno).fdh = true ∧
      ringbuf_size (chAt sh chno).rb = 0 ∧ (chAt sh chno).pending_close = true
  · have hres : do_pending_close chno sh = modifyCh sh chno channel_close := by
      simp [do_pending_close, h]
    rw [hres]
    unfold QuietFrom
    rw [chAt_modifyCh]
    by_cases hc : chno = k ∧ k < sh.ch.length
    · rw [if_pos hc, hc.1]
      exact ⟨hq.1, rfl, hq.2.2.1, hq.2.2.2⟩
    · rw [if_neg hc]
      exact hq
  · simpa [do_pending_close, h] using hq

theorem xmit_eof_quiet (chno : Nat) (sh : FbAdbSh) (k : Nat) (hk : k ≠ TO_PEER)
    (hq : QuietFrom sh k) :
    QuietFrom (xmit_eof chno sh).1 k ∧ ∀ p, Frame.data k p ∉ (xmit_eof chno sh).2 := by
  by_cases hck : chno = k
  · subst hck
    have hres : xmit_eof chno sh = (sh, []) := by
      have : ¬ ((chAt sh chno).fdh = false ∧ (chAt sh chno).sent_eof = false ∧
          ringbuf_size (chAt sh chno).rb = 0 ∧
          sizeof_msg_channel_close ≤ fb_adb_maxoutmsg sh) := by
        intro hg
        rw [hq.2.2.1] at hg
        exact absurd hg.2.1 (by simp)
      simp [xmit_eof, this]
    rw [hres]
    exact ⟨hq, by simp⟩
  · refine ⟨?_, ?_⟩
    · by_cases h : (chAt sh chno).fdh = false ∧ (chAt sh chno).sent_eof = false ∧
          ringbuf_size (chAt sh chno).rb = 0 ∧
          sizeof_msg_channel_close ≤ fb_adb_maxoutmsg sh
      · have hres : (xmit_eof chno sh).1 =
            modifyCh (emitFrame sh (Frame.close chno)) chno
              (fun cc => { cc with sent_eof := true }) := by
          simp [xmit_eof, h]
        rw [hres, quiet_modifyCh_ne _ _ _ _ hck]
        unfold emitFrame
        rw [quiet_modifyCh_ne _ _ _ _ (fun hc => hk hc.symm)]
        exact hq
      · simpa [xmit_eof, h] using hq
    · intro p hp
      rcases xmit_eof_shape chno sh with h | h <;> rw [h] at hp <;> simp at hp

theorem serviceChannel_quiet (sh : FbAdbSh) (chno k : Nat) (hk : k ≠ TO_PEER)
    (hq : QuietFrom sh k) :
    QuietFrom (serviceChannel sh chno).1 k ∧
      ∀ p, Frame.data k p ∉ (serviceChannel sh chno).2 := by
  have hd : QuietFrom (if NR_SPECIAL_CH < chno then xmit_data chno sh else (sh, [])).1 k ∧
      ∀ p, Frame.data k p ∉ (if NR_SPECIAL_CH < chno then xmit_data chno sh else (sh, [])).2 := by
    by_cases hu : NR_SPECIAL_CH < chno
    · simp only [if_pos hu]
      exact xmit_data_quiet chno sh k hk hq
    · simp only [if_neg hu]
      exact ⟨hq, by simp⟩
  have hp := do_pending_close_quiet chno _ k hd.1
  have he := xmit_eof_quiet chno _ k hk hp
  refine ⟨he.1, fun p hp2 => ?_⟩
  have hsnd : (serviceChannel sh chno).2 =
      (if NR_SPECIAL_CH < chno then xmit_data chno sh else (sh, [])).2 ++
        (xmit_eof chno (do_pending_close chno
          (if NR_SPECIAL_CH < chno then xmit_data chno sh else (sh, [])).1)).2 := rfl
  rw [hsnd] at hp2
  rcases List.mem_append.mp hp2 with hmem | hmem
  · exact hd.2 p hmem
  · exact he.2 p hmem

theorem runAcksFrom_quiet (l : List Nat) :
    ∀ (sh : FbAdbSh) (k : Nat), k ≠ TO_PEER → QuietFrom sh k →
      QuietFrom (runAcksFrom sh l).1 k := by
  induction l with
  | nil => exact fun sh k _ hq => hq
  | cons chno rest ih =>
    intro sh k hk hq
    exact ih (xmit_acks chno sh).1 k hk (xmit_acks_quiet chno sh k hk hq)

theorem runServiceFrom_quiet (l : List Nat) :
    ∀ (sh : FbAdbSh) (k : Nat), k ≠ TO_PEER → QuietFrom sh k →
      QuietFrom (runServiceFrom sh l).1 k ∧
        ∀ p, Frame.data k p ∉ (runServiceFrom sh l).2 := by
  induction l with
  | nil => exact fun sh k _ hq => ⟨hq, by simp [runServiceFrom]⟩
  | cons chno rest ih =>
    intro sh k hk hq
    have hs := serviceChannel_quiet sh chno k hk hq
    have hr := ih (serviceChannel sh chno).1 k hk hs.1
    refine ⟨hr.1, fun p hp => ?_⟩
    have hsnd : (runServiceFrom sh (chno :: rest)).2 =
        (serviceChannel sh chno).2 ++ (runServiceFrom (serviceChannel sh chno).1 rest).2 := rfl
    rw [hsnd] at hp
    rcases List.mem_append.mp hp with hmem | hmem
    · exact hs.2 p hmem
    · exact hr.2 p hmem

theorem data_handler_quiet (sh : FbAdbSh) (m : MsgChannelData) (sh1 : FbAdbSh) (k : Nat)
    (hk0 : k ≠ FROM_PEER) (h : fb_adb_sh_process_msg_channel_data sh m = Except.ok sh1)
    (hq : QuietFrom sh k) : QuietFrom sh1 k := by
  unfold fb_adb_sh_process_msg_channel_data at h
  dsimp only at h
  split_ifs at h with h1 h2 h3 h4
  · obtain rfl := (Except.ok.inj h).symm
    exact (quiet_modifyCh_ne _ _ _ _ (fun hc => hk0 hc.symm)).mpr hq
  · obtain rfl := (Except.ok.inj h).symm
    have hmk : m.channel ≠ k := by
      intro hc
      rw [hc] at h2
      exact h2 hq.1
    rw [quiet_modifyCh_ne _ _ _ _ (fun hc => hk0 hc.symm),
        quiet_modifyCh_ne _ _ _ _ hmk]
    exact hq

theorem window_handler_quiet (sh : FbAdbSh) (m : MsgChannelWindow) (sh1 : FbAdbSh) (k : Nat)
    (h : fb_adb_sh_process_msg_channel_window sh m = Except.ok sh1)
    (hq : QuietFrom sh k) : QuietFrom sh1 k := by
  unfold fb_adb_sh_process_msg_channel_window at h
  dsimp only at h
  split_ifs at h with h1 h2 h3 h4
  · obtain rfl := (Except.ok.inj h).symm
    exact hq
  · obtain rfl := (Except.ok.inj h).symm
    refine (quiet_fields_modifyCh _ _ _ _ ?_).mpr hq
    exact fun c => ⟨rfl, rfl, rfl, rfl⟩

theorem close_handler_quiet (sh : FbAdbSh) (m : MsgChannelClose) (sh1 : FbAdbSh) (k : Nat)
    (h : fb_adb_sh_process_msg_channel_close sh m = Except.ok sh1)
    (hq : QuietFrom sh k) : QuietFrom sh1 k := by
  unfold fb_adb_sh_process_msg_channel_close at h
  split_ifs at h with h1
  · obtain rfl := (Except.ok.inj h).symm
    exact hq
  · obtain rfl := (Except.ok.inj h).symm
    unfold QuietFrom
    rw [chAt_modifyCh]
    by_cases hc : m.channel = k ∧ k < sh.ch.length
    · rw [if_pos hc]
      refine ⟨?_, rfl, rfl, ?_⟩
      · show (chAt sh m.channel).dir = ChanDir.fromFd
        rw [hc.1]
        exact hq.1
      · show (chAt sh m.channel).rb.data = []
        rw [hc.1]
        exact hq.2.2.2
    · rw [if_neg hc]
      exact hq

theorem process_msg_quiet (sh : FbAdbSh) (mhdr : Msg) (sh1 : FbAdbSh) (k : Nat)
    (hk0 : k ≠ FROM_PEER) (h : fb_adb_sh_process_msg sh mhdr = Except.ok sh1)
    (hq : QuietFrom sh k) : QuietFrom sh1 k := by
  unfold fb_adb_sh_process_msg at h
  dsimp only at h
  split_ifs at h with h1 h2 h3 h4
  · refine data_handler_quiet _ _ _ k hk0 h ?_
    exact (quiet_modifyCh_ne _ _ _ _ (fun hc => hk0 hc.symm)).mpr hq
  · cases hr : read_cmdmsg sh mhdr sizeof_msg_channel_window with
    | error e =>
      rw [hr] at h
      exact absurd h (by simp)
    | ok r =>
      rw [hr] at h
      simp only at h
      refine window_handler_quiet _ _ _ k h ?_
      unfold read_cmdmsg at hr
      split_ifs at hr with hsz
      obtain rfl := (Except.ok.inj hr).symm
      exact (quiet_modifyCh_ne _ _ _ _ (fun hc => hk0 hc.symm)).mpr hq
  · cases hr : read_cmdmsg sh mhdr sizeof_msg_channel_close with
    | error e =>
      rw [hr] at h
      exact absurd h (by simp)
    | ok r =>
      rw [hr] at h
      simp only at h
      refine close_handler_quiet _ _ _ k h ?_
      unfold read_cmdmsg at hr
      split_ifs at hr with hsz
      obtain rfl := (Except.ok.inj hr).symm
      exact (quiet_modifyCh_ne _ _ _ _ (fun hc => hk0 hc.symm)).mpr hq

theorem drainLoop_quiet (fuel : Nat) :
    ∀ (sh sh1 : FbAdbSh) (k : Nat), k ≠ FROM_PEER →
      drainLoop fuel sh = Except.ok sh1 → QuietFrom sh k → QuietFrom sh1 k := by
  induction fuel with
  | zero =>
    intro sh sh1 k _ h hq
    obtain rfl := (Except.ok.inj h).symm
    exact hq
  | succ fuel ih =>
    intro sh sh1 k hk0 h hq
    unfold drainLoop at h
    cases hd : detect_msg (chAt sh FROM_PEER).rb with
    | error e =>
      rw [hd] at h
      exact absurd h (by simp)
    | ok o =>
      rw [hd] at h
      cases o with
      | none =>
        simp only at h
        obtain rfl := (Except.ok.inj h).symm
        exact hq
      | some mhdr =>
        simp only at h
        cases hp : fb_adb_sh_process_msg sh mhdr with
        | error e =>
          rw [hp] at h
          exact absurd h (by simp)
        | ok shm =>
          rw [hp] at h
          exact ih _ _ k hk0 h (process_msg_quiet _ _ _ k hk0 hp hq)

/-- Session refuting C3: user channel 2 is FROM_FD with one unframed byte
buffered. -/
def exC3 : FbAdbSh :=
  { nrch := 3
    ch := [openCh ChanDir.toFd 64 [], openCh ChanDir.toFd 64 []
          , openCh ChanDir.fromFd 4 [7]]
    max_outgoing_msg := 64 }

/-- `exC3` after the CHANNEL_CLOSE handler runs for channel 2: `sent_eof` is
set, the fd is gone, the byte is still buffered. -/
def exC3closed : FbAdbSh :=
  { nrch := 3
    ch := [openCh ChanDir.toFd 64 [], openCh ChanDir.toFd 64 []
          , { openCh ChanDir.fromFd 4 [7] with fdh := false, sent_eof := true }]
    max_outgoing_msg := 64 }

/-- C3 counterexample: a received CHANNEL_CLOSE sets `sent_eof` on FROM_FD
user channel 2 while a byte is still unframed — and the very next
`io_loop_pump` iteration emits a CHANNEL_DATA frame for that channel anyway,
because `xmit_data` never consults `sent_eof`. -/
theorem c3_counterexample :
    fb_adb_sh_process_msg_channel_close exC3
        { msg := { type := MSG_CHANNEL_CLOSE, size := 8 }, channel := 2 } =
      Except.ok exC3closed ∧
    (chAt exC3closed 2).sent_eof = true ∧
    (chAt exC3closed 2).dir = ChanDir.fromFd ∧
    0 < ringbuf_size (chAt exC3closed 2).rb ∧
    Except.map Prod.snd (io_loop_pump exC3closed) = Except.ok [Frame.data 2 [7]] := by
  decide

/-- C3 amended: `xmit_data` does not consult `sent_eof`, so a CHANNEL_CLOSE
received while a FROM_FD user channel still holds unframed bytes does not
suppress DATA for it — the next pump iteration frames the buffered bytes
(counterexample).  What does hold: once `sent_eof` is true AND the channel's
ring is empty (with the fd gone, as both setters of `sent_eof` leave it),
no pump iteration emits any further DATA frame for that channel, and every
pump iteration preserves that state — hence no later iteration ever frames
DATA for it. -/
theorem c3_amended (sh sh1 : FbAdbSh) (fs : List Frame) (k : Nat)
    (hk : NR_SPECIAL_CH < k) (hq : QuietFrom sh k)
    (h : io_loop_pump sh = Except.ok (sh1, fs)) :
    QuietFrom sh1 k ∧ ∀ p, Frame.data k p ∉ fs := by
  have hk0 : k ≠ FROM_PEER := by
    simp only [NR_SPECIAL_CH] at hk
    simp only [FROM_PEER]
    omega
  have hk1 : k ≠ TO_PEER := by
    simp only [NR_SPECIAL_CH] at hk
    simp only [TO_PEER]
    omega
  obtain ⟨shd, hdr, hsh1, hfs⟩ := io_loop_pump_ok _ _ _ h
  have hqd := drainLoop_quiet _ _ _ k hk0 hdr hq
  have hqa := runAcksFrom_quiet (List.range shd.nrch) shd k hk1 hqd
  have hqs := runServiceFrom_quiet (List.range shd.nrch) _ k hk1 hqa
  subst hsh1
  subst hfs
  refine ⟨hqs.1, fun p hp => ?_⟩
  rcases List.mem_append.mp hp with hmem | hmem
  · have := (runAcksFrom_mem _ _ _ hmem).1
    simp [Frame.isWindow] at this
  · exact hqs.2 p hmem

/-- Session for the C3 witness: channel 2 is quiet (closed, drained,
`sent_eof` set) while channel 3 still sends data. -/
def exC3b : FbAdbSh :=
  { nrch := 4
    ch := [openCh ChanDir.toFd 64 [], openCh ChanDir.toFd 64 []
          , { openCh ChanDir.fromFd 4 [] with fdh := false, sent_eof := true }
          , openCh ChanDir.fromFd 4 [5]]
    max_outgoing_msg := 64 }

/-- Witness for the amended C3: the pump frames channel 3's data but nothing
for the quiet channel 2, whose state is preserved. -/
theorem c3_amended_witness :
    QuietFrom
      { nrch := 4
        ch := [openCh ChanDir.toFd 64 []
              , openCh ChanDir.toFd 64 [1, 0, 9, 0, 3, 0, 0, 0, 5]
              , { openCh ChanDir.fromFd 4 [] with fdh := false, sent_eof := true }
              , openCh ChanDir.fromFd 4 []]
        max_outgoing_msg := 64 } 2 ∧
    ∀ p, Frame.data 2 p ∉ [Frame.data 3 [5]] := by
  exact c3_amended exC3b _ [Frame.data 3 [5]] 2 (by decide)
    (by constructor <;> decide) (by decide)

end FbAdb
